import Mathlib

/-!
# telebroad/fileserver: user directory, origin matching and the SFTP authentication gate

A shallow embedding of `users/users.go` and `sftp/server.go`.

* Go `string` values are lists of characters (`GoString`).
* A Go `map` is an association list; `range` visits it in list order, and statements
  about "whatever order" quantify over permutations of that list.
* A function body that can stop on a run-time fault (nil dereference, slice bound)
  returns an `Outcome`.
* The parts of the Go standard library the code calls (`net/netip`, `strings`,
  `strconv.Atoi`) are embedded function by function in the namespaces `netip`,
  `strings` and `strconv`, after the Go 1.22 sources. Their error values are the message
  texts, without the quoted input that Go appends.
* Loops become structurally recursive functions, so every definition evaluates on
  concrete inputs.
-/

set_option autoImplicit false

namespace Fileserver

/-- A Go `string`, as the list of its characters. -/
abbrev GoString := List Char

/-- A Go `byte` / `uint8`. -/
abbrev Byte := Fin 256

/-- The conversion `byte(x)` / `uint8(x)`: truncation to the low eight bits. -/
def byte (x : Nat) : Byte := ⟨x % 256, Nat.mod_lt x (by decide)⟩

deriving instance DecidableEq for Except

/-- The result of running a Go function body: a run-time fault (a panic such as a nil
dereference or a slice bound out of range), or a normal return. -/
inductive Outcome (α : Type) where
  | fault : Outcome α
  | returned (a : α) : Outcome α
  deriving DecidableEq

/-! ## `strings` and `strconv` -/

namespace strings

/-- Go `strings.Contains(s, sep)` for a one-character separator. -/
def Contains (s : GoString) (sep : Char) : Bool :=
  s.any (fun c => c == sep)

/-- Go `strings.Split(s, sep)` for a one-character separator: the pieces between
occurrences of `sep`; always at least one piece. -/
def Split : GoString → Char → List GoString
  | [], _ => [[]]
  | c :: rest, sep =>
    if c = sep then [] :: Split rest sep
    else
      match Split rest sep with
      | [] => [[c]]
      | piece :: pieces => (c :: piece) :: pieces

/-- Go `strings.IndexByte(s, c)` (`bytealg.IndexByteString`): `none` stands for `-1`. -/
def IndexByte : GoString → Char → Option Nat
  | [], _ => none
  | c :: rest, b =>
    if c = b then some 0
    else
      match IndexByte rest b with
      | none => none
      | some i => some (i + 1)

/-- Go `strings.LastIndexByte(s, c)` (`bytealg.LastIndexByteString`): `none` stands for `-1`. -/
def LastIndexByte : GoString → Char → Option Nat
  | [], _ => none
  | c :: rest, b =>
    match LastIndexByte rest b with
    | some i => some (i + 1)
    | none => if c = b then some 0 else none

end strings

namespace strconv

/-- The decimal value of a digit character. -/
def digitVal (c : Char) : Nat := c.toNat - '0'.toNat

/-- Whether `c` is one of `'0'..'9'`. -/
def isDigit (c : Char) : Bool := decide ('0' ≤ c) && decide (c ≤ '9')

/-- Go `strconv.Atoi` on a 64-bit platform: an optional sign, then one or more decimal
digits, with a range error outside `int64`. -/
def Atoi (s : GoString) : Except String Int :=
  let signed : Bool × GoString :=
    match s with
    | '-' :: r => (true, r)
    | '+' :: r => (false, r)
    | _ => (false, s)
  if signed.2 = [] then .error "invalid syntax"
  else if signed.2.all isDigit then
    let n : Nat := signed.2.foldl (fun acc c => acc * 10 + digitVal c) 0
    if signed.1 then
      if n > 2 ^ 63 then .error "value out of range" else .ok (-(n : Int))
    else
      if n > 2 ^ 63 - 1 then .error "value out of range" else .ok (n : Int)
  else .error "invalid syntax"

end strconv

/-! ## `net/netip` -/

namespace netip

/-- Go `netip.uint128`: two 64-bit halves. -/
structure uint128 where
  hi : Nat
  lo : Nat
  deriving DecidableEq

/-- Go `uint128.and`. -/
def uint128.and (u m : uint128) : uint128 := ⟨u.hi &&& m.hi, u.lo &&& m.lo⟩

/-- Go `uint128.xor`. -/
def uint128.xor (u m : uint128) : uint128 := ⟨u.hi ^^^ m.hi, u.lo ^^^ m.lo⟩

/-- Go `uint128.isZero`. -/
def uint128.isZero (u : uint128) : Bool := decide (u.hi ||| u.lo = 0)

/-- The all-ones 64-bit word `^uint64(0)`. -/
def allOnes64 : Nat := 2 ^ 64 - 1

/-- Go `mask6(n)`: the bitmask with the topmost `n` bits of a 128-bit number, that is
`uint128{^(^uint64(0) >> n), ^uint64(0) << (128 - n)}` with 64-bit shifts. -/
def mask6 (n : Nat) : uint128 :=
  ⟨allOnes64 - (allOnes64 >>> n), (allOnes64 <<< (128 - n)) % 2 ^ 64⟩

/-- The address family tag `Addr.z`: `z0` (zero Addr), `z4` (IPv4), or an IPv6 tag
carrying the zone name; `z6 []` is Go's `z6noz`. -/
inductive Zone where
  | z0 : Zone
  | z4 : Zone
  | z6 (zone : GoString) : Zone
  deriving DecidableEq

/-- Go `netip.Addr`. -/
structure Addr where
  addr : uint128
  z : Zone
  deriving DecidableEq

/-- Go `Addr.isZero`. -/
def Addr.isZero (ip : Addr) : Bool := decide (ip.z = Zone.z0)

/-- Go `Addr.Is4`. -/
def Addr.Is4 (ip : Addr) : Bool := decide (ip.z = Zone.z4)

/-- Go `Addr.Is6`. -/
def Addr.Is6 (ip : Addr) : Bool := decide (ip.z ≠ Zone.z0) && decide (ip.z ≠ Zone.z4)

/-- Go `Addr.BitLen`. -/
def Addr.BitLen (ip : Addr) : Nat :=
  match ip.z with
  | Zone.z0 => 0
  | Zone.z4 => 32
  | Zone.z6 _ => 128

/-- Go `Addr.hasZone`: an IPv6 address with a non-empty zone. -/
def Addr.hasZone (ip : Addr) : Bool :=
  match ip.z with
  | Zone.z6 (_ :: _) => true
  | _ => false

/-- Go `Addr.withoutZone`. -/
def Addr.withoutZone (ip : Addr) : Addr :=
  if ip.Is6 then { ip with z := Zone.z6 [] } else ip

/-- Go `Addr.WithZone`. -/
def Addr.WithZone (ip : Addr) (zone : GoString) : Addr :=
  if ip.Is6 then { ip with z := Zone.z6 zone } else ip

/-- Go `AddrFrom4`. -/
def AddrFrom4 (a : List Byte) : Addr :=
  { addr := ⟨0, 0xffff00000000 ||| ((a.getD 0 0).val <<< 24) ||| ((a.getD 1 0).val <<< 16)
                ||| ((a.getD 2 0).val <<< 8) ||| (a.getD 3 0).val⟩,
    z := Zone.z4 }

/-- Go `beUint64`: eight bytes starting at `off`, big-endian. -/
def beUint64 (b : List Byte) (off : Nat) : Nat :=
  ((b.getD (off + 7) 0).val) ||| ((b.getD (off + 6) 0).val <<< 8)
    ||| ((b.getD (off + 5) 0).val <<< 16) ||| ((b.getD (off + 4) 0).val <<< 24)
    ||| ((b.getD (off + 3) 0).val <<< 32) ||| ((b.getD (off + 2) 0).val <<< 40)
    ||| ((b.getD (off + 1) 0).val <<< 48) ||| ((b.getD off 0).val <<< 56)

/-- Go `AddrFrom16`. -/
def AddrFrom16 (a : List Byte) : Addr :=
  { addr := ⟨beUint64 a 0, beUint64 a 8⟩, z := Zone.z6 [] }

/-- Go `IPv6Unspecified`. -/
def IPv6Unspecified : Addr := { addr := ⟨0, 0⟩, z := Zone.z6 [] }

/-- The loop of Go `parseIPv4Fields` over `s`; `rest` is `s[i:]`. -/
def parseIPv4Fields.loop (s : GoString) :
    List Char → Nat → Nat → Nat → Nat → List Byte → Except String (List Byte)
  | [], _, val, pos, _, fields =>
    if pos < 3 then .error "IPv4 address too short"
    else .ok (fields.set 3 (byte val))
  | c :: rest, i, val, pos, digLen, fields =>
    if '0' ≤ c ∧ c ≤ '9' then
      if digLen = 1 ∧ val = 0 then .error "IPv4 field has octet with leading zero"
      else if val * 10 + c.toNat - '0'.toNat > 255 then .error "IPv4 field has value >255"
      else parseIPv4Fields.loop s rest (i + 1) (val * 10 + c.toNat - '0'.toNat) pos (digLen + 1) fields
    else if c = '.' then
      if i = 0 ∨ i = s.length - 1 ∨ s.get? (i - 1) = some '.' then
        .error "IPv4 field must have at least one digit"
      else if pos = 3 then .error "IPv4 address too long"
      else parseIPv4Fields.loop s rest (i + 1) 0 (pos + 1) 0 (fields.set pos (byte val))
    else .error "unexpected character"

/-- Go `parseIPv4Fields`, on the substring `s` it is asked to parse; returns the four
octets. -/
def parseIPv4Fields (s : GoString) : Except String (List Byte) :=
  parseIPv4Fields.loop s s 0 0 0 0 [0, 0, 0, 0]

/-- Go `parseIPv4`. -/
def parseIPv4 (s : GoString) : Except String Addr :=
  match parseIPv4Fields s with
  | .error e => .error e
  | .ok fields => .ok (AddrFrom4 fields)

/-- The inner loop of Go `parseIPv6` that reads one group of hex digits from `s`;
returns the number `off` of characters read and the accumulated 32-bit value. -/
def parseIPv6.hex : List Char → Nat → Nat → Except String (Nat × Nat)
  | [], off, acc => .ok (off, acc)
  | c :: rest, off, acc =>
    let next : Option Nat :=
      if '0' ≤ c ∧ c ≤ '9' then some (((acc <<< 4) + (c.toNat - '0'.toNat)) % 2 ^ 32)
      else if 'a' ≤ c ∧ c ≤ 'f' then some (((acc <<< 4) + (c.toNat - 'a'.toNat + 10)) % 2 ^ 32)
      else if 'A' ≤ c ∧ c ≤ 'F' then some (((acc <<< 4) + (c.toNat - 'A'.toNat + 10)) % 2 ^ 32)
      else none
    match next with
    | none => .ok (off, acc)
    | some acc' =>
      if off > 3 then .error "each group must have 4 or less digits"
      else if acc' > 0xffff then .error "IPv6 field has value >=2^16"
      else parseIPv6.hex rest (off + 1) acc'

/-- The state of the main loop of Go `parseIPv6`. -/
structure V6State where
  s : GoString
  ip : List Byte
  i : Nat
  ellipsis : Int
  deriving DecidableEq

/-- The main loop `for i < 16` of Go `parseIPv6`. Every iteration that continues adds 2
to `i`, so nine units of fuel are never used up. -/
def parseIPv6.loop : Nat → V6State → Except String V6State
  | 0, st => .ok st
  | fuel + 1, st =>
    if ¬ st.i < 16 then .ok st
    else
      match parseIPv6.hex st.s 0 0 with
      | .error e => .error e
      | .ok (off, acc) =>
        if off = 0 then .error "each colon-separated field must have at least one digit"
        else if off < st.s.length ∧ st.s.get? off = some '.' then
          if st.ellipsis < 0 ∧ st.i ≠ 12 then
            .error "embedded IPv4 address must replace the final 2 fields of the address"
          else if st.i + 4 > 16 then
            .error "too many hex fields to fit an embedded IPv4 at the end of the address"
          else
            match parseIPv4Fields st.s with
            | .error e => .error e
            | .ok f =>
              .ok { s := [],
                    ip := (((st.ip.set st.i (f.getD 0 0)).set (st.i + 1) (f.getD 1 0)).set
                            (st.i + 2) (f.getD 2 0)).set (st.i + 3) (f.getD 3 0),
                    i := st.i + 4, ellipsis := st.ellipsis }
        else
          let ip := (st.ip.set st.i (byte (acc >>> 8))).set (st.i + 1) (byte acc)
          let i := st.i + 2
          let s := st.s.drop off
          if s.length = 0 then .ok { s := s, ip := ip, i := i, ellipsis := st.ellipsis }
          else if s.get? 0 ≠ some ':' then .error "unexpected character, want colon"
          else if s.length = 1 then .error "colon must be followed by more characters"
          else
            let s1 := s.drop 1
            if s1.get? 0 = some ':' then
              if st.ellipsis ≥ 0 then .error "multiple :: in address"
              else
                let s2 := s1.drop 1
                if s2.length = 0 then .ok { s := s2, ip := ip, i := i, ellipsis := (i : Int) }
                else parseIPv6.loop fuel { s := s2, ip := ip, i := i, ellipsis := (i : Int) }
            else parseIPv6.loop fuel { s := s1, ip := ip, i := i, ellipsis := st.ellipsis }

/-- The ellipsis expansion at the end of Go `parseIPv6`: with `n = 16 - i`, first
`ip[j+n] = ip[j]` for `j = i-1` down to `ellipsis`, then `ip[j] = 0` for
`j = ellipsis+n-1` down to `ellipsis`. -/
def parseIPv6.expand (ip : List Byte) (i ellipsis : Nat) : List Byte :=
  let n := 16 - i
  let moved := (List.range (i - ellipsis)).foldl
    (fun (acc : List Byte) k => acc.set (i - 1 - k + n) (acc.getD (i - 1 - k) 0)) ip
  (List.range n).foldl (fun (acc : List Byte) k => acc.set (ellipsis + n - 1 - k) 0) moved

/-- The end of Go `parseIPv6`, after the main loop: the whole string must be used, a
short address needs an ellipsis to expand, a full one must not have one. -/
def parseIPv6.finish (st : V6State) (zone : GoString) : Except String Addr :=
  if st.s.length ≠ 0 then .error "trailing garbage after address"
  else if st.i < 16 then
    if st.ellipsis < 0 then .error "address string too short"
    else .ok ((AddrFrom16 (parseIPv6.expand st.ip st.i st.ellipsis.toNat)).WithZone zone)
  else if st.ellipsis ≥ 0 then .error "the :: must expand to at least one field of zeroes"
  else .ok ((AddrFrom16 st.ip).WithZone zone)

/-- Go `parseIPv6` after the zone has been split off: `s` is the address part. -/
def parseIPv6.body (s zone : GoString) : Except String Addr :=
  let lead : Bool := decide (s.length ≥ 2) && decide (s.get? 0 = some ':')
    && decide (s.get? 1 = some ':')
  if lead ∧ (s.drop 2).length = 0 then .ok (IPv6Unspecified.WithZone zone)
  else
    match parseIPv6.loop 9
        { s := if lead then s.drop 2 else s, ip := List.replicate 16 0, i := 0,
          ellipsis := if lead then 0 else -1 } with
    | .error e => .error e
    | .ok st => parseIPv6.finish st zone

/-- Go `parseIPv6`: splits off the zone at the first `'%'`, then parses the address. -/
def parseIPv6 (inp : GoString) : Except String Addr :=
  match strings.IndexByte inp '%' with
  | none => parseIPv6.body inp []
  | some i =>
    if inp.drop (i + 1) = [] then .error "zone must be a non-empty string"
    else parseIPv6.body (inp.take i) (inp.drop (i + 1))

/-- The dispatch loop of Go `ParseAddr`: the first of `'.'`, `':'`, `'%'` in `s` decides
how the whole input `inp` is parsed. -/
def ParseAddr.scan (inp : GoString) : List Char → Except String Addr
  | [] => .error "unable to parse IP"
  | c :: rest =>
    if c = '.' then parseIPv4 inp
    else if c = ':' then parseIPv6 inp
    else if c = '%' then .error "missing IPv6 address"
    else ParseAddr.scan inp rest

/-- Go `netip.ParseAddr`. -/
def ParseAddr (s : GoString) : Except String Addr := ParseAddr.scan s s

/-- Go `netip.Prefix`: an address and `bitsPlusOne`, the prefix length plus one; a
Prefix is valid exactly when `bitsPlusOne` is not zero. -/
structure Prefix where
  ip : Addr
  bitsPlusOne : Nat
  deriving DecidableEq

/-- Go `Prefix.Bits`. -/
def Prefix.Bits (p : Prefix) : Int := (p.bitsPlusOne : Int) - 1

/-- Go `Prefix.IsValid`. -/
def Prefix.IsValid (p : Prefix) : Bool := decide (p.bitsPlusOne > 0)

/-- Go `PrefixFrom`: keeps the address bits as they are, drops the zone, and is invalid
when `bits` is out of range for the address. -/
def PrefixFrom (ip : Addr) (bits : Int) : Prefix :=
  { ip := ip.withoutZone,
    bitsPlusOne :=
      if !ip.isZero ∧ bits ≥ 0 ∧ bits ≤ (ip.BitLen : Int) then (bits.toNat % 256 + 1) % 256
      else 0 }

/-- Go `Addr.Prefix(b)`: masks off the host bits and keeps the top `b` bits. -/
def Addr.Prefix (ip : Addr) (b : Int) : Except String Prefix :=
  if b < 0 then .error "negative Prefix bits"
  else
    match ip.z with
    | Zone.z0 => .ok { ip := { addr := ⟨0, 0⟩, z := Zone.z0 }, bitsPlusOne := 0 }
    | Zone.z4 =>
      if b > 32 then .error "prefix length too large for IPv4"
      else .ok (PrefixFrom { ip with addr := ip.addr.and (mask6 (b.toNat + 96)) } b)
    | Zone.z6 _ =>
      if b > 128 then .error "prefix length too large for IPv6"
      else .ok (PrefixFrom { ip with addr := ip.addr.and (mask6 b.toNat) } b)

/-- Go `Prefix.Contains`. An address with a zone is never contained; the two families
never match each other. -/
def Prefix.Contains (p : Prefix) (ip : Addr) : Bool :=
  if !p.IsValid || ip.hasZone then false
  else if p.ip.BitLen = 0 ∨ ip.BitLen = 0 ∨ p.ip.BitLen ≠ ip.BitLen then false
  else if ip.Is4 then
    decide (((ip.addr.lo ^^^ p.ip.addr.lo) >>> ((32 - p.Bits) % 64).toNat) % 2 ^ 32 = 0)
  else ((ip.addr.xor p.ip.addr).and (mask6 p.Bits.toNat)).isZero

/-- Go `netip.ParsePrefix`. -/
def ParsePrefix (s : GoString) : Except String Prefix :=
  match strings.LastIndexByte s '/' with
  | none => .error "no '/'"
  | some i =>
    match ParseAddr (s.take i) with
    | .error e => .error e
    | .ok ip =>
      if ip.Is6 ∧ ip.z ≠ Zone.z6 [] then .error "IPv6 zones cannot be present in a prefix"
      else
        let bitsStr := s.drop (i + 1)
        if bitsStr.length > 1 ∧ (bitsStr.headD '0' < '1' ∨ bitsStr.headD '0' > '9') then
          .error "bad bits after slash"
        else
          match strconv.Atoi bitsStr with
          | .error _ => .error "bad bits after slash"
          | .ok bits =>
            let maxBits : Int := if ip.Is6 then 128 else 32
            if bits < 0 ∨ bits > maxBits then .error "prefix length out of range"
            else .ok (PrefixFrom ip bits)

end netip

/-! ## Go maps -/

namespace GoMap

variable {κ ν : Type} [DecidableEq κ]

/-- The assignment `m[k] = v`: replaces the value of an existing key, else adds an entry. -/
def set (m : List (κ × ν)) (k : κ) (v : ν) : List (κ × ν) :=
  if m.any (fun e => decide (e.1 = k)) then m.map (fun e => if e.1 = k then (k, v) else e)
  else m ++ [(k, v)]

/-- The statement `delete(m, k)`. -/
def delete (m : List (κ × ν)) (k : κ) : List (κ × ν) :=
  m.filter (fun e => decide (e.1 ≠ k))

/-- The lookup `v, ok := m[k]`. -/
def get? (m : List (κ × ν)) (k : κ) : Option ν :=
  (m.find? (fun e => decide (e.1 = k))).map (fun e => e.2)

end GoMap

/-! ## `users/users.go` -/

namespace users

/-- The error values the package returns. -/
inductive Error where
  /-- `errors.New("user not found")` -/
  | userNotFound : Error
  /-- `fmt.Errorf("password is incorrect")` -/
  | passwordIncorrect : Error
  /-- `fmt.Errorf("ip origin %s is not allowed", ipaddr)` -/
  | ipOriginNotAllowed (ipaddr : GoString) : Error
  /-- `fmt.Errorf("error parsing IP: %w", err)` -/
  | errorParsingIP (err : String) : Error
  deriving DecidableEq

/-- Go `users.User`. An entry of `IPs` with value `none` is a nil `*netip.Prefix`; the
map itself is the non-nil map that `LocalUsers.Add` makes. -/
structure User where
  Username : GoString
  Password : GoString
  IPs : List (GoString × Option netip.Prefix)
  deriving DecidableEq

/-- The loop `for k, v := range u.IPs` of `User.FindIP`, visiting the entries in list
order. `v.Contains(addr)` on a nil `v` is a fault. -/
def User.FindIP.range (addr : netip.Addr) : List (GoString × Option netip.Prefix) → Outcome Bool
  | [] => .returned false
  | (k, v) :: rest =>
    if k = ['*'] then .returned true
    else
      match v with
      | none => .fault
      | some p => if p.Contains addr then .returned true else User.FindIP.range addr rest

/-- Go `User.FindIP`. -/
def User.FindIP (u : User) (ip : GoString) : Outcome Bool :=
  match netip.ParseAddr ip with
  | .error _ => .returned false
  | .ok addr => User.FindIP.range addr u.IPs

/-- Go `User.AddIP`: the user afterwards and the error returned (`none` is nil). -/
def User.AddIP (u : User) (ip : GoString) : User × Option Error :=
  if ip = ['*'] then ({ u with IPs := GoMap.set u.IPs ['*'] none }, none)
  else if !strings.Contains ip '/' then
    match netip.ParseAddr ip with
    | .error err => (u, some (Error.errorParsingIP err))
    | .ok addr =>
      let pfx : netip.Prefix :=
        match (if addr.Is4 then addr.Prefix 32 else addr.Prefix 128) with
        | .ok p => p
        | .error _ => { ip := { addr := ⟨0, 0⟩, z := netip.Zone.z0 }, bitsPlusOne := 0 }
      ({ u with IPs := GoMap.set u.IPs ip (some pfx) }, none)
  else
    match netip.ParsePrefix ip with
    | .error err => (u, some (Error.errorParsingIP err))
    | .ok pfx => ({ u with IPs := GoMap.set u.IPs ip (some pfx) }, none)

/-- Go `User.RemoveIP`. -/
def User.RemoveIP (u : User) (ip : GoString) : User :=
  if ip = ['*'] then { u with IPs := GoMap.delete u.IPs ['*'] }
  else
    let key := if !strings.Contains ip '/' then ip ++ ['/', '3', '2'] else ip
    { u with IPs := GoMap.delete u.IPs key }

/-- Go `users.LocalUsers`: the map from username to the user record it points to. -/
structure LocalUsers where
  users : List (GoString × User)
  deriving DecidableEq

/-- Go `NewLocalUsers`. -/
def NewLocalUsers : LocalUsers := { users := [] }

/-- Go `LocalUsers.Get`. -/
def LocalUsers.Get (u : LocalUsers) (username : GoString) : Except Error User :=
  match GoMap.get? u.users username with
  | none => .error Error.userNotFound
  | some user => .ok user

/-- Go `LocalUsers.Add`: the directory afterwards and the record created. -/
def LocalUsers.Add (u : LocalUsers) (user pass : GoString) : LocalUsers × User :=
  let newUser : User := { Username := user, Password := pass, IPs := [] }
  ({ users := GoMap.set u.users newUser.Username newUser }, newUser)

/-- Go `LocalUsers.Remove`: the directory afterwards and the old record (`none` is nil). -/
def LocalUsers.Remove (u : LocalUsers) (user : GoString) : LocalUsers × Option User :=
  ({ users := GoMap.delete u.users user }, GoMap.get? u.users user)

/-- The port stripping of `LocalUsers.FindUser`:
`if strings.Contains(ipaddr, ":") { ipaddr = strings.Split(ipaddr, ":")[0] }`. -/
def stripPort (ipaddr : GoString) : GoString :=
  if strings.Contains ipaddr ':' then (strings.Split ipaddr ':').headD [] else ipaddr

/-- Go `LocalUsers.FindUser` (the context argument is not used by the body). -/
def LocalUsers.FindUser (u : LocalUsers) (username password ipaddr : GoString) :
    Outcome (Except Error User) :=
  match u.Get username with
  | .error err => .returned (.error err)
  | .ok userInfo =>
    if userInfo.Password ≠ password then .returned (.error Error.passwordIncorrect)
    else
      match userInfo.FindIP (stripPort ipaddr) with
      | .fault => .fault
      | .returned false => .returned (.error (Error.ipOriginNotAllowed (stripPort ipaddr)))
      | .returned true => .returned (.ok userInfo)

end users

/-! ## `sftp/server.go` -/

namespace sftp

/-- Go `context.Context` values, as far as the server builds them. -/
inductive Context where
  | background : Context
  | withCancelCause (parent : Context) : Context
  | withTimeoutCause (parent : Context) (seconds : Nat) (cause : String) : Context
  deriving DecidableEq

/-- Go `ssh.ConnMetadata`: the identity of a connection (`id` stands for the pointer
that the interface value holds) with the results of its `User()` and
`RemoteAddr().String()` methods. -/
structure ConnMetadata where
  id : Nat
  User : GoString
  RemoteAddr : GoString
  deriving DecidableEq

/-- Go `sshServerConnCTX`; `cancel` and `conn` are the handles whose calls `Close`
records as events. -/
structure sshServerConnCTX where
  ctx : Context
  cancel : Nat
  conn : Nat
  deriving DecidableEq

/-- Go interface `Users`: `FindUser(ctx, username, password, ipaddr) (any, error)`. -/
abbrev Users (ε α : Type) := Context → GoString → GoString → GoString → Outcome (Except ε α)

/-- The `users.LocalUsers` directory seen through the `Users` interface. -/
def localUsers (d : users.LocalUsers) : Users users.Error users.User :=
  fun _ username password ipaddr => d.FindUser username password ipaddr

/-- Go `sftp.Server`, with the fields the connection registry and shutdown use. A field
of pointer or interface type is `none` when nil; a nil and an empty `sshServerConn` map
read alike. -/
structure Server (ε α : Type) where
  Addr : GoString
  sftpServer : Option Nat
  sshServerConn : List (ConnMetadata × sshServerConnCTX)
  listener : Option Nat
  users : Users ε α

/-- Go `NewSFTPServer`: only `Addr`, `fsFileRoot` and `users` are set. -/
def NewSFTPServer {ε α : Type} (addr : GoString) (users : Users ε α) : Server ε α :=
  { Addr := addr, sftpServer := none, sshServerConn := [], listener := none, users := users }

/-- The error value of `Server.AuthHandler`:
`fmt.Errorf("password rejected for %q", c.User())`. -/
inductive AuthHandlerError where
  | passwordRejected (user : GoString) : AuthHandlerError
  deriving DecidableEq

/-- Go `Server.AuthHandler`. The result pair is `(*ssh.Permissions, error)`, both nil on
acceptance. `s.sshServerConn[c]` is a nil pointer when `c` has no record, and reading its
`ctx` field is then a fault. -/
def Server.AuthHandler {ε α : Type} (s : Server ε α) (c : ConnMetadata) (pass : GoString) :
    Outcome (Option Unit × Option AuthHandlerError) :=
  match GoMap.get? s.sshServerConn c with
  | none => .fault
  | some record =>
    match s.users (Context.withTimeoutCause record.ctx 5 "login timeout") c.User pass
        c.RemoteAddr with
    | .fault => .fault
    | .returned (.ok _) => .returned (none, none)
    | .returned (.error _) => .returned (none, some (AuthHandlerError.passwordRejected c.User))

/-- The result of the `Users.FindUser` call that `Server.AuthHandler` makes, `none` when
the handler stops before making it. -/
def Server.AuthHandler.findUserCall {ε α : Type} (s : Server ε α) (c : ConnMetadata)
    (pass : GoString) : Option (Outcome (Except ε α)) :=
  match GoMap.get? s.sshServerConn c with
  | none => none
  | some record =>
    some (s.users (Context.withTimeoutCause record.ctx 5 "login timeout") c.User pass
      c.RemoteAddr)

/-- The first statement of Go `Server.ListenAndServe`, its only write to the registry:
`s.sshServerConn = make(map[ssh.ConnMetadata]*sshServerConnCTX)`. The listener it opens
is kept in a local variable, not in `s.listener`. -/
def Server.ListenAndServe.start {ε α : Type} (s : Server ε α) : Server ε α :=
  { s with sshServerConn := [] }

/-- In Go `Server.sshHandler`, after a successful handshake:
`s.sshServerConn[sshConn.Conn] = &sshServerConnCTX{ctx, cancel, sshConn}`. -/
def Server.sshHandler.register {ε α : Type} (s : Server ε α) (c : ConnMetadata)
    (record : sshServerConnCTX) : Server ε α :=
  { s with sshServerConn := GoMap.set s.sshServerConn c record }

/-- In Go `Server.sshHandler`, the deferred `delete(s.sshServerConn, sshConn.Conn)`. -/
def Server.sshHandler.unregister {ε α : Type} (s : Server ε α) (c : ConnMetadata) :
    Server ε α :=
  { s with sshServerConn := GoMap.delete s.sshServerConn c }

/-- In Go `Server.sshHandler`, for an accepted session channel:
`s.sftpServer = sftp.NewRequestServer(channel, FS, serverOptions...)`. -/
def Server.sshHandler.serve {ε α : Type} (s : Server ε α) (requestServer : Nat) :
    Server ε α :=
  { s with sftpServer := some requestServer }

/-- The server states that `NewSFTPServer`, `ListenAndServe` and `sshHandler` produce.
These are all the writes to `sshServerConn` and `sftpServer` in the package; `listener`
is an unexported field that no function assigns. -/
inductive Server.Reachable {ε α : Type} : Server ε α → Prop where
  | new (addr : GoString) (users : Users ε α) : Server.Reachable (NewSFTPServer addr users)
  | listen {s : Server ε α} : Server.Reachable s → Server.Reachable (Server.ListenAndServe.start s)
  | register {s : Server ε α} (c : ConnMetadata) (record : sshServerConnCTX) :
      Server.Reachable s → Server.Reachable (Server.sshHandler.register s c record)
  | unregister {s : Server ε α} (c : ConnMetadata) :
      Server.Reachable s → Server.Reachable (Server.sshHandler.unregister s c)
  | serve {s : Server ε α} (requestServer : Nat) :
      Server.Reachable s → Server.Reachable (Server.sshHandler.serve s requestServer)

/-- The server states on the path of the program, with the order of `sshHandler` kept:
`ssh.NewServerConn` runs the handshake with `s.sshConfig`, whose only authentication method
is `PasswordCallback: s.AuthHandler`, so it returns a connection only after a call of
`AuthHandler` for that connection has returned an acceptance; the record is written after
that. -/
inductive Server.Produced {ε α : Type} : Server ε α → Prop where
  | new (addr : GoString) (users : Users ε α) : Server.Produced (NewSFTPServer addr users)
  | listen {s : Server ε α} : Server.Produced s → Server.Produced (Server.ListenAndServe.start s)
  | register {s : Server ε α} (c : ConnMetadata) (pass : GoString) (record : sshServerConnCTX) :
      Server.Produced s → s.AuthHandler c pass = .returned (none, none) →
      Server.Produced (Server.sshHandler.register s c record)
  | unregister {s : Server ε α} (c : ConnMetadata) :
      Server.Produced s → Server.Produced (Server.sshHandler.unregister s c)
  | serve {s : Server ε α} (requestServer : Nat) :
      Server.Produced s → Server.Produced (Server.sshHandler.serve s requestServer)

/-- What `Server.Close` does to its collaborators. -/
inductive Event where
  /-- `s.sftpServer.Close()` -/
  | sftpServerClose (requestServer : Nat) : Event
  /-- `ctx.conn.Close()` -/
  | connClose (conn : Nat) : Event
  /-- `ctx.cancel(errors.New(cause))` -/
  | cancel (cancel : Nat) (cause : String) : Event
  /-- `s.listener.Close()` -/
  | listenerClose (listener : Nat) : Event
  deriving DecidableEq

/-- The goroutines that Go `Server.Close` starts, one per record, run one after the other
in the order of `records`: close the connection, cancel with cause "server closed",
delete the record. -/
def Server.Close.goroutines {ε α : Type} :
    List (ConnMetadata × sshServerConnCTX) → Server ε α → List Event → Server ε α × List Event
  | [], s, events => (s, events)
  | (conn, ctx) :: records, s, events =>
    Server.Close.goroutines records
      { s with sshServerConn := GoMap.delete s.sshServerConn conn }
      (events ++ [Event.connClose ctx.conn, Event.cancel ctx.cancel "server closed"])

/-- Go `Server.Close`, with the goroutines run in map order. Calling `Close` on the nil
`s.sftpServer` dereferences it (the method reads `rs.conn`), and calling `Close` on the
nil interface `s.listener` is a fault as well. -/
def Server.Close {ε α : Type} (s : Server ε α) : Outcome (Server ε α × List Event) :=
  match s.sftpServer with
  | none => .fault
  | some requestServer =>
    let after := Server.Close.goroutines s.sshServerConn s [Event.sftpServerClose requestServer]
    match s.listener with
    | none => .fault
    | some listener => .returned (after.1, after.2 ++ [Event.listenerClose listener])

/-- Go `ssh.Request`, with `ReplyErr` telling whether `req.Reply` returns an error for
this request. -/
structure Request where
  ReqType : GoString
  WantReply : Bool
  Payload : List Byte
  ReplyErr : Bool
  deriving DecidableEq

/-- The bytes of the string "sftp". -/
def sftpName : List Byte := [115, 102, 116, 112]

/-- Go `Server.filterHandler` over the requests the channel delivers: the list of the
`ok` values passed to `req.Reply`, in order. The slice expression `req.Payload[4:]` is a
fault when the payload has fewer than four bytes. -/
def Server.filterHandler : List Request → Outcome (List Bool)
  | [] => .returned []
  | req :: rest =>
    let ok : Outcome Bool :=
      if req.ReqType = "subsystem".toList then
        if req.Payload.length < 4 then .fault
        else .returned (decide (req.Payload.drop 4 = sftpName))
      else .returned false
    match ok with
    | .fault => .fault
    | .returned ok =>
      if req.ReplyErr then .returned [ok]
      else
        match Server.filterHandler rest with
        | .fault => .fault
        | .returned replies => .returned (ok :: replies)

end sftp

end Fileserver

namespace Fileserver

namespace netip

/-- The shape of the addresses that `ParseAddr` returns: an IPv4 address is stored as the
IPv4-mapped 128-bit value `::ffff:a.b.c.d` (upper half zero, bits 32 to 47 of the lower
half set), an IPv6 address as two 64-bit halves. -/
def Addr.WellFormed (ip : Addr) : Prop :=
  match ip.z with
  | Zone.z0 => False
  | Zone.z4 => ip.addr.hi = 0 ∧ ip.addr.lo / 2 ^ 32 = 0xffff
  | Zone.z6 _ => ip.addr.hi < 2 ^ 64 ∧ ip.addr.lo < 2 ^ 64

/-- The four octets of an IPv4 address as one 32-bit number. -/
def Addr.v4 (ip : Addr) : Nat := ip.addr.lo % 2 ^ 32

/-- Stated from the specification ("address falls within a stored prefix"), for IPv4: an
address lies within a prefix of length `bits` when its leading `bits` bits are those of
the address of the prefix. -/
def Prefix.covers4 (p : Prefix) (ip : Addr) : Prop :=
  ip.v4 / 2 ^ (32 - p.Bits.toNat) = p.ip.v4 / 2 ^ (32 - p.Bits.toNat)

instance (p : Prefix) (ip : Addr) : Decidable (p.covers4 ip) := by
  unfold Prefix.covers4
  exact inferInstance

end netip

namespace users

/-- A call of one of the two origin-management methods of `User`. -/
inductive IPOp where
  | add (ip : GoString) : IPOp
  | remove (ip : GoString) : IPOp
  deriving DecidableEq

/-- The user after one origin-management call (the error of `AddIP` is dropped). -/
def User.apply (u : User) : IPOp → User
  | IPOp.add ip => (u.AddIP ip).1
  | IPOp.remove ip => u.RemoveIP ip

/-- The user after a sequence of origin-management calls. -/
def User.applyAll (u : User) (ops : List IPOp) : User := ops.foldl User.apply u

/-- The record that `LocalUsers.Add(user, pass)` creates. -/
def newUser (user pass : GoString) : User := (NewLocalUsers.Add user pass).2

/-- Every entry other than the allow-any marker holds a prefix (a non-nil pointer). -/
def User.Valid (u : User) : Prop := ∀ e ∈ u.IPs, e.1 ≠ ['*'] → e.2 ≠ none

end users
end Fileserver

namespace Fileserver

/-! ## The scenarios of the specification, as concrete values -/

namespace Scenario

open users sftp

/-- The username of the scenarios. -/
def alice : GoString := "alice".toList

/-- The secret of the scenarios. -/
def secret : GoString := "s3cret".toList

/-- Scenario 1: `Add("alice","s3cret")` then `AddIP("10.0.0.0/24")`. -/
def alice24 : User := (newUser alice secret).applyAll (["10.0.0.0/24".toList].map IPOp.add)

/-- The directory of scenario 1. -/
def dir24 : LocalUsers := { users := [(alice, alice24)] }

/-- Scenario 4: `Add("alice","s3cret")` then `AddIP("*")`. -/
def aliceAny : User := ((newUser alice secret).AddIP ['*']).1

/-- The directory of scenario 4. -/
def dirAny : LocalUsers := { users := [(alice, aliceAny)] }

/-- A connection of user alice from `10.0.0.5:4444`. -/
def connAllowed : ConnMetadata := { id := 1, User := alice, RemoteAddr := "10.0.0.5:4444".toList }

/-- A connection of user alice from `11.0.0.5:4444`. -/
def connDenied : ConnMetadata := { id := 2, User := alice, RemoteAddr := "11.0.0.5:4444".toList }

/-- A server over the directory of scenario 1 right after `ListenAndServe` started: no
connection was accepted and no SFTP session was opened. -/
def serverListening : Server users.Error users.User :=
  Server.ListenAndServe.start (NewSFTPServer ":22".toList (localUsers dir24))

/-- A "subsystem" request with an empty payload. -/
def emptySubsystem : Request :=
  { ReqType := "subsystem".toList, WantReply := true, Payload := [], ReplyErr := false }

end Scenario

end Fileserver

/-! ## Lemmas about Go maps -/

namespace Fileserver

theorem GoMap.get?_delete_self {κ ν : Type} [DecidableEq κ] (m : List (κ × ν)) (k : κ) :
    GoMap.get? (GoMap.delete m k) k = none := by
  induction m with
  | nil => rfl
  | cons e rest ih =>
    unfold GoMap.get? GoMap.delete at *
    by_cases h : e.1 = k
    · simp [List.filter_cons, h, ih]
    · simp [List.filter_cons, List.find?_cons, h, ih]

theorem GoMap.mem_set {κ ν : Type} [DecidableEq κ] (m : List (κ × ν)) (k : κ) (v : ν)
    (e : κ × ν) (he : e ∈ GoMap.set m k v) : e = (k, v) ∨ e ∈ m := by
  unfold GoMap.set at he
  split at he
  · rw [List.mem_map] at he
    obtain ⟨e', he', h⟩ := he
    split at h
    · exact Or.inl h.symm
    · exact Or.inr (h ▸ he')
  · rw [List.mem_append] at he
    rcases he with he | he
    · exact Or.inr he
    · exact Or.inl (by simpa using he)

theorem GoMap.key_mem_set {κ ν : Type} [DecidableEq κ] (m : List (κ × ν)) (k : κ) (v : ν) :
    k ∈ (GoMap.set m k v).map Prod.fst := by
  unfold GoMap.set
  split
  · rename_i h
    rw [List.any_eq_true] at h
    obtain ⟨e, he, hk⟩ := h
    rw [List.mem_map]
    refine ⟨(k, v), ?_, rfl⟩
    rw [List.mem_map]
    have hk' : e.1 = k := by simpa using hk
    exact ⟨e, he, by simp [hk']⟩
  · simp

theorem GoMap.key_mem_set_of_mem {κ ν : Type} [DecidableEq κ] (m : List (κ × ν)) (k k' : κ)
    (v : ν) (h : k' ∈ m.map Prod.fst) : k' ∈ (GoMap.set m k v).map Prod.fst := by
  unfold GoMap.set
  split
  · rw [List.mem_map] at h ⊢
    obtain ⟨e, he, hk⟩ := h
    by_cases hek : e.1 = k
    · exact ⟨(k, v), List.mem_map.2 ⟨e, he, by simp [hek]⟩, by rw [← hk, hek]⟩
    · exact ⟨e, List.mem_map.2 ⟨e, he, by simp [hek]⟩, hk⟩
  · simp only [List.map_append, List.mem_append]
    exact Or.inl h

theorem GoMap.mem_delete {κ ν : Type} [DecidableEq κ] (m : List (κ × ν)) (k : κ)
    (e : κ × ν) : e ∈ GoMap.delete m k ↔ e ∈ m ∧ e.1 ≠ k := by
  simp [GoMap.delete]

theorem GoMap.key_mem_delete_of_ne {κ ν : Type} [DecidableEq κ] (m : List (κ × ν)) (k k' : κ)
    (hne : k' ≠ k) (h : k' ∈ m.map Prod.fst) : k' ∈ (GoMap.delete m k).map Prod.fst := by
  rw [List.mem_map] at h ⊢
  obtain ⟨e, he, hk⟩ := h
  exact ⟨e, (GoMap.mem_delete m k e).2 ⟨he, by rw [hk]; exact hne⟩, hk⟩

theorem GoMap.mem_set_self {κ ν : Type} [DecidableEq κ] (m : List (κ × ν)) (k : κ) (v : ν) :
    (k, v) ∈ GoMap.set m k v := by
  unfold GoMap.set
  split
  · rename_i h
    rw [List.any_eq_true] at h
    obtain ⟨e, he, hk⟩ := h
    have hk' : e.1 = k := by simpa using hk
    exact List.mem_map.2 ⟨e, he, by simp [hk']⟩
  · simp

theorem GoMap.mem_set_of_ne {κ ν : Type} [DecidableEq κ] (m : List (κ × ν)) (k : κ) (v : ν)
    (e : κ × ν) (he : e ∈ m) (hne : e.1 ≠ k) : e ∈ GoMap.set m k v := by
  unfold GoMap.set
  split
  · exact List.mem_map.2 ⟨e, he, by simp [hne]⟩
  · exact List.mem_append_left _ he

end Fileserver

/-! ## Lemmas about `net/netip` values -/

namespace Fileserver
namespace netip

theorem shl_or_eq_add (a b i : Nat) (h : b < 2 ^ i) : (a <<< i) ||| b = a * 2 ^ i + b := by
  rw [Nat.shiftLeft_eq, Nat.mul_comm a, ← Nat.mul_add_lt_is_or h]

theorem AddrFrom4_lo (f : List Byte) :
    (AddrFrom4 f).addr.lo = 0xffff * 2 ^ 32 + ((f.getD 0 0).val * 2 ^ 24
      + ((f.getD 1 0).val * 2 ^ 16 + ((f.getD 2 0).val * 2 ^ 8 + (f.getD 3 0).val))) := by
  have h0 := (f.getD 0 0).isLt
  have h1 := (f.getD 1 0).isLt
  have h2 := (f.getD 2 0).isLt
  have h3 := (f.getD 3 0).isLt
  have e3 := shl_or_eq_add (f.getD 2 0).val (f.getD 3 0).val 8 (by omega)
  have e2 := shl_or_eq_add (f.getD 1 0).val ((f.getD 2 0).val * 2 ^ 8 + (f.getD 3 0).val) 16
    (by omega)
  have e1 := shl_or_eq_add (f.getD 0 0).val ((f.getD 1 0).val * 2 ^ 16
    + ((f.getD 2 0).val * 2 ^ 8 + (f.getD 3 0).val)) 24 (by omega)
  have e0 := shl_or_eq_add 0xffff ((f.getD 0 0).val * 2 ^ 24 + ((f.getD 1 0).val * 2 ^ 16
    + ((f.getD 2 0).val * 2 ^ 8 + (f.getD 3 0).val))) 32 (by omega)
  have hA : (0xffff00000000 : Nat) = 0xffff <<< 32 := by decide
  show 0xffff00000000 ||| ((f.getD 0 0).val <<< 24) ||| ((f.getD 1 0).val <<< 16)
      ||| ((f.getD 2 0).val <<< 8) ||| (f.getD 3 0).val = _
  rw [Nat.or_assoc, Nat.or_assoc, Nat.or_assoc, e3, e2, e1, hA, e0]

theorem AddrFrom4_wellFormed (f : List Byte) : (AddrFrom4 f).WellFormed := by
  have h0 := (f.getD 0 0).isLt
  have h1 := (f.getD 1 0).isLt
  have h2 := (f.getD 2 0).isLt
  have h3 := (f.getD 3 0).isLt
  have hlo := AddrFrom4_lo f
  refine ⟨rfl, ?_⟩
  rw [hlo]
  omega

theorem beUint64_lt (b : List Byte) (off : Nat) : beUint64 b off < 2 ^ 64 := by
  have h (x : Byte) (k : Nat) (hk : k ≤ 56) : x.val <<< k < 2 ^ 64 := by
    rw [Nat.shiftLeft_eq]
    calc x.val * 2 ^ k < 2 ^ 8 * 2 ^ k := Nat.mul_lt_mul_of_pos_right x.isLt (Nat.two_pow_pos k)
      _ = 2 ^ (8 + k) := (Nat.pow_add 2 8 k).symm
      _ ≤ 2 ^ 64 := Nat.pow_le_pow_right (by decide) (by omega)
  unfold beUint64
  have h7 : (b.getD (off + 7) 0).val < 2 ^ 64 := by
    have := (b.getD (off + 7) 0).isLt
    omega
  exact Nat.or_lt_two_pow (Nat.or_lt_two_pow (Nat.or_lt_two_pow (Nat.or_lt_two_pow
    (Nat.or_lt_two_pow (Nat.or_lt_two_pow (Nat.or_lt_two_pow h7 (h _ 8 (by omega)))
    (h _ 16 (by omega))) (h _ 24 (by omega))) (h _ 32 (by omega))) (h _ 40 (by omega)))
    (h _ 48 (by omega))) (h _ 56 (by omega))

theorem AddrFrom16_wellFormed (a : List Byte) (zone : GoString) :
    ((AddrFrom16 a).WithZone zone).WellFormed ∧ ((AddrFrom16 a).WithZone zone).z = Zone.z6 zone := by
  exact ⟨⟨beUint64_lt a 0, beUint64_lt a 8⟩, rfl⟩

theorem IPv6Unspecified_wellFormed (zone : GoString) :
    (IPv6Unspecified.WithZone zone).WellFormed ∧ (IPv6Unspecified.WithZone zone).z = Zone.z6 zone := by
  exact ⟨⟨Nat.two_pow_pos 64, Nat.two_pow_pos 64⟩, rfl⟩

theorem testBit_high_of_div_eq (x y i : Nat) (h : x / 2 ^ 32 = y / 2 ^ 32) (hi : 32 ≤ i) :
    x.testBit i = y.testBit i := by
  have hx : x.testBit i = (x / 2 ^ 32).testBit (i - 32) := by
    rw [← Nat.shiftRight_eq_div_pow, Nat.testBit_shiftRight]
    congr 1; omega
  have hy : y.testBit i = (y / 2 ^ 32).testBit (i - 32) := by
    rw [← Nat.shiftRight_eq_div_pow, Nat.testBit_shiftRight]
    congr 1; omega
  rw [hx, hy, h]

theorem contains4_iff (x y k : Nat) (hk : k ≤ 32) (h : x / 2 ^ 32 = y / 2 ^ 32) :
    ((x ^^^ y) >>> k) % 2 ^ 32 = 0 ↔ (x % 2 ^ 32) / 2 ^ k = (y % 2 ^ 32) / 2 ^ k := by
  constructor
  · intro hz
    apply Nat.eq_of_testBit_eq
    intro j
    rw [← Nat.shiftRight_eq_div_pow, ← Nat.shiftRight_eq_div_pow, Nat.testBit_shiftRight,
      Nat.testBit_shiftRight, Nat.testBit_mod_two_pow, Nat.testBit_mod_two_pow]
    by_cases hj : k + j < 32
    · have hb := congrArg (fun n => Nat.testBit n j) hz
      simp only [Nat.testBit_mod_two_pow, Nat.testBit_shiftRight, Nat.testBit_xor,
        Nat.zero_testBit] at hb
      have hj' : j < 32 := by omega
      simp only [hj, hj', decide_True, Bool.true_and] at hb ⊢
      revert hb
      cases x.testBit (k + j) <;> cases y.testBit (k + j) <;> simp
    · simp [hj]
  · intro he
    apply Nat.eq_of_testBit_eq
    intro j
    rw [Nat.testBit_mod_two_pow, Nat.testBit_shiftRight, Nat.testBit_xor, Nat.zero_testBit]
    by_cases hj : k + j < 32
    · have hb := congrArg (fun n => Nat.testBit n j) he
      simp only [← Nat.shiftRight_eq_div_pow, Nat.testBit_shiftRight,
        Nat.testBit_mod_two_pow, hj, decide_True, Bool.true_and] at hb
      rw [hb]; simp
    · rw [testBit_high_of_div_eq x y (k + j) h (by omega)]; simp

theorem contains6_full_iff (x y : uint128) (hx : x.hi < 2 ^ 64 ∧ x.lo < 2 ^ 64)
    (hy : y.hi < 2 ^ 64 ∧ y.lo < 2 ^ 64) :
    ((x.xor y).and (mask6 128)).isZero = true ↔ x = y := by
  have hm : mask6 128 = ⟨2 ^ 64 - 1, 2 ^ 64 - 1⟩ := by decide
  rw [hm]
  unfold uint128.isZero uint128.and uint128.xor
  simp only [decide_eq_true_eq]
  rw [Nat.and_pow_two_sub_one_of_lt_two_pow (Nat.xor_lt_two_pow hx.1 hy.1),
    Nat.and_pow_two_sub_one_of_lt_two_pow (Nat.xor_lt_two_pow hx.2 hy.2)]
  constructor
  · intro h
    have h1 : x.hi ^^^ y.hi = 0 := by
      apply Nat.eq_of_testBit_eq; intro i
      have := congrArg (fun n => Nat.testBit n i) h
      simp only [Nat.testBit_or, Nat.zero_testBit, Bool.or_eq_false_iff] at this
      simpa using this.1
    have h2 : x.lo ^^^ y.lo = 0 := by
      apply Nat.eq_of_testBit_eq; intro i
      have := congrArg (fun n => Nat.testBit n i) h
      simp only [Nat.testBit_or, Nat.zero_testBit, Bool.or_eq_false_iff] at this
      simpa using this.2
    cases x; cases y
    simp only [uint128.mk.injEq]
    exact ⟨Nat.xor_eq_zero.1 h1, Nat.xor_eq_zero.1 h2⟩
  · intro h
    subst h
    simp

end netip
end Fileserver

/-! ## Lemmas about the parsers and the port stripping -/

namespace Fileserver
namespace netip

theorem parseIPv4_ok (s : GoString) (a : Addr) (h : parseIPv4 s = .ok a) :
    a.WellFormed ∧ a.z = Zone.z4 := by
  unfold parseIPv4 at h
  split at h
  · cases h
  · cases h
    exact ⟨AddrFrom4_wellFormed _, rfl⟩

theorem parseIPv6.finish_ok (st : V6State) (zone : GoString) (a : Addr)
    (h : parseIPv6.finish st zone = .ok a) : a.WellFormed ∧ a.z = Zone.z6 zone := by
  unfold parseIPv6.finish at h
  split at h
  · cases h
  · split at h
    · split at h
      · cases h
      · cases h
        exact AddrFrom16_wellFormed _ zone
    · split at h
      · cases h
      · cases h
        exact AddrFrom16_wellFormed _ zone

theorem parseIPv6.body_ok (s zone : GoString) (a : Addr)
    (h : parseIPv6.body s zone = .ok a) : a.WellFormed ∧ a.z = Zone.z6 zone := by
  unfold parseIPv6.body at h
  simp only at h
  split at h
  · cases h
    exact IPv6Unspecified_wellFormed zone
  · split at h
    · cases h
    · exact parseIPv6.finish_ok _ zone a h

theorem parseIPv6_ok (s : GoString) (a : Addr) (h : parseIPv6 s = .ok a) :
    a.WellFormed ∧ ∃ zone, a.z = Zone.z6 zone := by
  unfold parseIPv6 at h
  split at h
  · exact ⟨(parseIPv6.body_ok _ _ a h).1, _, (parseIPv6.body_ok _ _ a h).2⟩
  · split at h
    · cases h
    · exact ⟨(parseIPv6.body_ok _ _ a h).1, _, (parseIPv6.body_ok _ _ a h).2⟩

theorem ParseAddr.scan_ok (inp : GoString) (a : Addr) (rest : List Char)
    (h : ParseAddr.scan inp rest = .ok a) :
    (parseIPv4 inp = .ok a ∧ a.z = Zone.z4)
    ∨ (parseIPv6 inp = .ok a ∧ (∃ zone, a.z = Zone.z6 zone)
        ∧ ∃ pre post, rest = pre ++ ':' :: post ∧ ∀ c ∈ pre, c ≠ '.' ∧ c ≠ ':' ∧ c ≠ '%') := by
  induction rest with
  | nil => simp [ParseAddr.scan] at h
  | cons c rest ih =>
    unfold ParseAddr.scan at h
    split at h
    · exact Or.inl ⟨h, (parseIPv4_ok inp a h).2⟩
    · split at h
      · rename_i hc
        exact Or.inr ⟨h, (parseIPv6_ok inp a h).2, [], rest, by simp [hc], by simp⟩
      · split at h
        · cases h
        · rename_i h1 h2 h3
          rcases ih h with h4 | ⟨h6, hz, pre, post, hsplit, hpre⟩
          · exact Or.inl h4
          · refine Or.inr ⟨h6, hz, c :: pre, post, by simp [hsplit], ?_⟩
            intro c' hc'
            rcases List.mem_cons.1 hc' with h' | h'
            · subst h'; exact ⟨h1, h2, h3⟩
            · exact hpre c' h'

theorem ParseAddr_wellFormed (s : GoString) (a : Addr) (h : ParseAddr s = .ok a) :
    a.WellFormed := by
  rcases ParseAddr.scan_ok s a s h with h4 | h6
  · exact (parseIPv4_ok s a h4.1).1
  · exact (parseIPv6_ok s a h6.1).1

theorem ParseAddr_z_ne_z0 (s : GoString) (a : Addr) (h : ParseAddr s = .ok a) :
    a.z ≠ Zone.z0 := by
  rcases ParseAddr.scan_ok s a s h with h4 | h6
  · rw [h4.2]; simp
  · obtain ⟨zone, hz⟩ := h6.2.1
    rw [hz]; simp

theorem parseIPv4Fields.loop_no_colon (s : GoString) (rest : List Char)
    (i val pos digLen : Nat) (fields out : List Byte)
    (h : parseIPv4Fields.loop s rest i val pos digLen fields = .ok out) : ':' ∉ rest := by
  induction rest generalizing i val pos digLen fields with
  | nil => simp
  | cons c rest ih =>
    unfold parseIPv4Fields.loop at h
    split at h
    · rename_i hc
      split at h
      · cases h
      · split at h
        · cases h
        · have := ih _ _ _ _ _ h
          intro hm
          rcases List.mem_cons.1 hm with h' | h'
          · subst h'; exact absurd hc (by decide)
          · exact this h'
    · split at h
      · rename_i hc
        split at h
        · cases h
        · split at h
          · cases h
          · have := ih _ _ _ _ _ h
            intro hm
            rcases List.mem_cons.1 hm with h' | h'
            · subst h'; exact absurd hc (by decide)
            · exact this h'
      · cases h

theorem ParseAddr_v4_no_colon (s : GoString) (a : Addr) (h : ParseAddr s = .ok a)
    (h4 : a.Is4 = true) : ':' ∉ s := by
  rcases ParseAddr.scan_ok s a s h with h4' | h6
  · have hp := h4'.1
    unfold parseIPv4 at hp
    split at hp
    · cases hp
    · rename_i fields hf
      exact parseIPv4Fields.loop_no_colon s s 0 0 0 0 [0, 0, 0, 0] fields hf
  · obtain ⟨zone, hz⟩ := h6.2.1
    simp [Addr.Is4, hz] at h4

theorem ParseAddr.scan_plain (inp : GoString) (rest : List Char)
    (h : ∀ c ∈ rest, c ≠ '.' ∧ c ≠ ':' ∧ c ≠ '%') :
    ParseAddr.scan inp rest = .error "unable to parse IP" := by
  induction rest with
  | nil => rfl
  | cons c rest ih =>
    have hc := h c (List.mem_cons_self _ _)
    unfold ParseAddr.scan
    rw [if_neg hc.1, if_neg hc.2.1, if_neg hc.2.2]
    exact ih (fun c' hc' => h c' (List.mem_cons_of_mem _ hc'))

end netip

namespace strings

theorem Split_head (pre post : GoString) (sep : Char) (h : sep ∉ pre) :
    (Split (pre ++ sep :: post) sep).headD [] = pre := by
  induction pre with
  | nil => simp [Split]
  | cons c pre ih =>
    have hc : c ≠ sep := fun hh => h (by rw [hh]; exact List.mem_cons_self _ _)
    have ih' := ih (fun hh => h (List.mem_cons_of_mem _ hh))
    simp only [List.cons_append, Split, if_neg hc]
    cases hs : Split (pre ++ sep :: post) sep with
    | nil => rw [hs] at ih'; simp at ih'; simp [ih']
    | cons piece pieces => rw [hs] at ih'; simp at ih'; simp [ih']

theorem Contains_append_sep (pre post : GoString) (sep : Char) :
    Contains (pre ++ sep :: post) sep = true := by
  simp [Contains]

theorem Contains_eq_false (s : GoString) (sep : Char) (h : sep ∉ s) : Contains s sep = false := by
  simp only [Contains, List.any_eq_false]
  intro c hc
  simp only [beq_iff_eq]
  exact fun hh => h (hh ▸ hc)

theorem LastIndexByte_none (s : GoString) (b : Char) (h : LastIndexByte s b = none) : b ∉ s := by
  induction s with
  | nil => simp
  | cons c rest ih =>
    unfold LastIndexByte at h
    split at h
    · cases h
    · rename_i hr
      split at h
      · cases h
      · rename_i hc
        intro hm
        rcases List.mem_cons.1 hm with h' | h'
        · exact hc h'.symm
        · exact ih hr h'

theorem LastIndexByte_some_mem (s : GoString) (b : Char) (i : Nat)
    (h : LastIndexByte s b = some i) : b ∈ s := by
  by_contra hn
  induction s generalizing i with
  | nil => simp [LastIndexByte] at h
  | cons c rest ih =>
    unfold LastIndexByte at h
    have hc : c ≠ b := fun hh => hn (by rw [hh]; exact List.mem_cons_self _ _)
    have hr : b ∉ rest := fun hh => hn (List.mem_cons_of_mem _ hh)
    split at h
    · rename_i j hj
      exact ih j hj hr
    · simp [hc] at h

end strings

namespace users

theorem stripPort_append (pre post : GoString) (h : ':' ∉ pre) :
    stripPort (pre ++ ':' :: post) = pre := by
  unfold stripPort
  rw [strings.Contains_append_sep, if_pos rfl, strings.Split_head pre post ':' h]

/-- On a well-formed IPv6 address the port stripping of `FindUser` leaves a string that
is not an address. -/
theorem stripPort_v6 (o : GoString) (addr : netip.Addr) (h : netip.ParseAddr o = .ok addr)
    (h6 : addr.Is6 = true) : netip.ParseAddr (stripPort o) = .error "unable to parse IP" := by
  rcases netip.ParseAddr.scan_ok o addr o h with h4 | ⟨_, _, pre, post, hsplit, hpre⟩
  · simp [netip.Addr.Is6, h4.2] at h6
  · have hcolon : ':' ∉ pre := fun hm => (hpre ':' hm).2.1 rfl
    rw [hsplit, stripPort_append pre post hcolon]
    exact netip.ParseAddr.scan_plain pre pre hpre

end users
end Fileserver

namespace Fileserver
namespace netip

/-- The fuel of the main loop of `parseIPv6` is never the reason it stops: any two amounts
that cover the remaining groups (`16 ≤ i + 2 * fuel`) give the same result. In particular
the nine units `parseIPv6.body` passes, starting from `i = 0`, behave like any larger
amount. -/
theorem parseIPv6.loop_fuel (f1 f2 : Nat) (st : V6State)
    (h1 : 16 ≤ st.i + 2 * f1) (h2 : 16 ≤ st.i + 2 * f2) :
    parseIPv6.loop f1 st = parseIPv6.loop f2 st := by
  induction f1 generalizing f2 st with
  | zero =>
    have hi : ¬ st.i < 16 := by omega
    cases f2 with
    | zero => rfl
    | succ f2 =>
      unfold parseIPv6.loop
      simp only [hi, not_false_eq_true, if_true]
  | succ f1 ih =>
    cases f2 with
    | zero =>
      have hi : ¬ st.i < 16 := by omega
      unfold parseIPv6.loop
      simp only [hi, not_false_eq_true, if_true]
    | succ f2 =>
      have hrec : ∀ (s : GoString) (ip : List Byte) (e : Int),
          parseIPv6.loop f1 { s := s, ip := ip, i := st.i + 2, ellipsis := e }
            = parseIPv6.loop f2 { s := s, ip := ip, i := st.i + 2, ellipsis := e } := by
        intro s ip e
        exact ih f2 _ (by simp only; omega) (by simp only; omega)
      rw [parseIPv6.loop, parseIPv6.loop]
      simp only [hrec]

end netip
end Fileserver

/-! ## Prefixes and origin entries -/

namespace Fileserver
open netip

namespace netip

theorem ParsePrefix_ok (s : GoString) (p : Prefix) (h : ParsePrefix s = .ok p) :
    '/' ∈ s ∧ ∃ ip bits, ParseAddr (s.take ((strings.LastIndexByte s '/').getD 0)) = .ok ip
      ∧ p = PrefixFrom ip bits ∧ 0 ≤ bits ∧ bits ≤ (if ip.Is6 then 128 else 32)
      ∧ ip.hasZone = false := by
  unfold ParsePrefix at h
  split at h
  · cases h
  · rename_i i hi
    have hslash : '/' ∈ s := strings.LastIndexByte_some_mem s '/' i hi
    refine ⟨hslash, ?_⟩
    split at h
    · cases h
    · rename_i ip hip
      split at h
      · cases h
      · rename_i hzone
        simp only at h
        split at h
        · cases h
        · split at h
          · cases h
          · rename_i bits hbits
            by_cases hrange : bits < 0 ∨ bits > (if ip.Is6 = true then 128 else 32)
            · rw [if_pos hrange] at h; cases h
            · rw [if_neg hrange] at h
              cases h
              refine ⟨ip, bits, by simpa [hi] using hip, rfl, by omega, ?_, ?_⟩
              · split <;> rename_i h6 <;> simp [h6] at hrange <;> omega
              · unfold Addr.hasZone
                split
                · rename_i c cs hz
                  exact absurd ⟨by simp [Addr.Is6, hz], by simp [hz]⟩ hzone
                · rfl

theorem PrefixFrom_v4 (ip : Addr) (bits : Int) (hz : ip.z = Zone.z4) (h0 : 0 ≤ bits)
    (h32 : bits ≤ 32) :
    (PrefixFrom ip bits).ip = ip ∧ (PrefixFrom ip bits).bitsPlusOne = bits.toNat + 1 := by
  unfold PrefixFrom
  constructor
  · simp [Addr.withoutZone, Addr.Is6, hz]
  · have hnz : ip.isZero = false := by simp [Addr.isZero, hz]
    have hb : (ip.BitLen : Int) = 32 := by simp [Addr.BitLen, hz]
    have hcond : (!ip.isZero) = true ∧ bits ≥ 0 ∧ bits ≤ (ip.BitLen : Int) :=
      ⟨by rw [hnz]; rfl, h0, by rw [hb]; exact h32⟩
    simp only [if_pos hcond]
    omega

theorem PrefixFrom_v6_ip (ip : Addr) (bits : Int) (zone : GoString) (hz : ip.z = Zone.z6 zone) :
    (PrefixFrom ip bits).ip.z = Zone.z6 [] := by
  simp [PrefixFrom, Addr.withoutZone, Addr.Is6, hz]

/-- An IPv4 prefix as `ParsePrefix` returns it. -/
theorem ParsePrefix_v4 (s : GoString) (p : Prefix) (h : ParsePrefix s = .ok p)
    (h4 : p.ip.Is4 = true) :
    '/' ∈ s ∧ p.ip.z = Zone.z4 ∧ p.ip.WellFormed ∧ 1 ≤ p.bitsPlusOne ∧ p.bitsPlusOne ≤ 33 := by
  obtain ⟨hslash, ip, bits, hip, hp, h0, hmax, _⟩ := ParsePrefix_ok s p h
  refine ⟨hslash, ?_⟩
  have hwf := ParseAddr_wellFormed _ ip hip
  rcases ParseAddr.scan_ok _ ip _ hip with hv4 | hv6
  · have hz := hv4.2
    have hn6 : ip.Is6 = false := by simp [Addr.Is6, hz]
    rw [hn6] at hmax
    simp only [Bool.false_eq_true, if_false] at hmax
    obtain ⟨e1, e2⟩ := PrefixFrom_v4 ip bits hz h0 hmax
    rw [hp, e1, e2]
    exact ⟨hz, hwf, by omega, by omega⟩
  · obtain ⟨zone, hz⟩ := hv6.2.1
    have := PrefixFrom_v6_ip ip bits zone hz
    rw [← hp] at this
    simp [Addr.Is4, this] at h4

theorem Prefix.Contains_v4 (p : Prefix) (addr : Addr) (hpz : p.ip.z = Zone.z4)
    (hpwf : p.ip.WellFormed) (hb1 : 1 ≤ p.bitsPlusOne) (hb2 : p.bitsPlusOne ≤ 33)
    (haz : addr.z = Zone.z4) (hawf : addr.WellFormed) :
    p.Contains addr = true ↔ p.covers4 addr := by
  have hp : p.ip.addr.lo / 2 ^ 32 = 0xffff := by
    have := hpwf; unfold Addr.WellFormed at this; rw [hpz] at this; exact this.2
  have ha : addr.addr.lo / 2 ^ 32 = 0xffff := by
    have := hawf; unfold Addr.WellFormed at this; rw [haz] at this; exact this.2
  have hbits : p.Bits = (p.bitsPlusOne : Int) - 1 := rfl
  have hk : ((32 - p.Bits) % 64).toNat = 32 - p.Bits.toNat := by
    rw [hbits]; omega
  unfold Prefix.Contains Prefix.covers4 Addr.v4
  have hvalid : p.IsValid = true := by simp [Prefix.IsValid]; omega
  have hnz : addr.hasZone = false := by simp [Addr.hasZone, haz]
  have hbl : p.ip.BitLen = 32 := by simp [Addr.BitLen, hpz]
  have hbl' : addr.BitLen = 32 := by simp [Addr.BitLen, haz]
  have h4 : addr.Is4 = true := by simp [Addr.Is4, haz]
  simp only [hvalid, hnz, hbl, hbl', h4, hk, Bool.not_true, Bool.or_self, Bool.false_eq_true,
    if_false, if_true, decide_eq_true_eq]
  simp only [show ¬ ((32 : Nat) = 0 ∨ (32 : Nat) = 0 ∨ (32 : Nat) ≠ 32) by decide, if_false]
  have hle : 32 - p.Bits.toNat ≤ 32 := by omega
  have := contains4_iff addr.addr.lo p.ip.addr.lo (32 - p.Bits.toNat) hle (by rw [ha, hp])
  rw [decide_eq_true_iff]
  exact this

end netip

namespace users

theorem User.AddIP_cidr (u : User) (spec : GoString) (p : Prefix)
    (h : ParsePrefix spec = .ok p) :
    u.AddIP spec = ({ u with IPs := GoMap.set u.IPs spec (some p) }, none) := by
  have hslash := (ParsePrefix_ok spec p h).1
  have hne : spec ≠ ['*'] := by
    intro hh; rw [hh] at hslash; simp at hslash
  have hc : strings.Contains spec '/' = true := by
    simp only [strings.Contains, List.any_eq_true]
    exact ⟨'/', hslash, by simp⟩
  unfold User.AddIP
  rw [if_neg hne]
  simp [hc, h]

theorem User.FindIP.range_any (addr : Addr) (entries : List (GoString × Option Prefix))
    (h : ∀ e ∈ entries, e.1 ≠ ['*'] ∧ ∃ p, e.2 = some p) :
    User.FindIP.range addr entries = .returned (decide (∃ e ∈ entries, ∃ p, e.2 = some p
      ∧ p.Contains addr = true)) := by
  induction entries with
  | nil => simp [User.FindIP.range]
  | cons e rest ih =>
    obtain ⟨k, v⟩ := e
    obtain ⟨hk, p, hp⟩ := h (k, v) (List.mem_cons_self _ _)
    simp only at hk hp
    subst hp
    unfold User.FindIP.range
    rw [if_neg hk]
    by_cases hc : p.Contains addr = true
    · simp [hc]
    · have := ih (fun e he => h e (List.mem_cons_of_mem _ he))
      simp only [hc, Bool.false_eq_true, if_false, this]
      congr 1
      simp [hc]

/-- The origin entries of a user after `AddIP` calls with CIDR prefixes: one entry per
spec, holding what `ParsePrefix` returns for it. -/
theorem User.applyAll_cidr (u : User) (done specs : List GoString)
    (hu : (∀ e ∈ u.IPs, e.1 ∈ done ∧ ∃ p, ParsePrefix e.1 = .ok p ∧ e.2 = some p)
      ∧ ∀ spec ∈ done, ∃ e ∈ u.IPs, e.1 = spec)
    (hspecs : ∀ spec ∈ specs, ∃ p, ParsePrefix spec = .ok p) :
    (∀ e ∈ (u.applyAll (specs.map IPOp.add)).IPs,
        e.1 ∈ done ++ specs ∧ ∃ p, ParsePrefix e.1 = .ok p ∧ e.2 = some p)
    ∧ (∀ spec ∈ done ++ specs, ∃ e ∈ (u.applyAll (specs.map IPOp.add)).IPs, e.1 = spec)
    ∧ (u.applyAll (specs.map IPOp.add)).Username = u.Username
    ∧ (u.applyAll (specs.map IPOp.add)).Password = u.Password := by
  induction specs generalizing u done with
  | nil => simpa [User.applyAll] using hu
  | cons spec specs ih =>
    obtain ⟨p, hp⟩ := hspecs spec (List.mem_cons_self _ _)
    have hstep : u.apply (IPOp.add spec) = { u with IPs := GoMap.set u.IPs spec (some p) } := by
      simp [User.apply, User.AddIP_cidr u spec p hp]
    have := ih (u.apply (IPOp.add spec)) (done ++ [spec]) ?_
      (fun s hs => hspecs s (List.mem_cons_of_mem _ hs))
    · simp only [List.map_cons, User.applyAll, List.foldl_cons] at this ⊢
      simp only [List.append_assoc, List.singleton_append] at this
      refine ⟨this.1, this.2.1, ?_, ?_⟩
      · rw [this.2.2.1, hstep]
      · rw [this.2.2.2, hstep]
    · rw [hstep]
      constructor
      · intro e he
        rcases GoMap.mem_set _ _ _ _ he with h1 | h1
        · subst h1
          exact ⟨by simp, p, hp, rfl⟩
        · obtain ⟨h2, h3⟩ := hu.1 e h1
          exact ⟨List.mem_append_left _ h2, h3⟩
      · intro s hs
        rcases List.mem_append.1 hs with h1 | h1
        · obtain ⟨e, he, hes⟩ := hu.2 s h1
          by_cases hk : e.1 = spec
          · exact ⟨(spec, some p), GoMap.mem_set_self _ _ _, by rw [← hes, hk]⟩
          · exact ⟨e, GoMap.mem_set_of_ne _ _ _ _ he hk, hes⟩
        · have : s = spec := by simpa using h1
          subst this
          exact ⟨(s, some p), GoMap.mem_set_self _ _ _, rfl⟩

end users
end Fileserver

namespace Fileserver
open netip

namespace netip

theorem mask6_128 : mask6 128 = ⟨2 ^ 64 - 1, 2 ^ 64 - 1⟩ := by decide

theorem uint128.and_mask6_128 (x : uint128) (h : x.hi < 2 ^ 64 ∧ x.lo < 2 ^ 64) :
    x.and (mask6 128) = x := by
  rw [mask6_128]
  cases x
  simp only [uint128.and, uint128.mk.injEq]
  exact ⟨Nat.and_pow_two_sub_one_of_lt_two_pow h.1, Nat.and_pow_two_sub_one_of_lt_two_pow h.2⟩

theorem Addr.WellFormed.lt (ip : Addr) (h : ip.WellFormed) :
    ip.addr.hi < 2 ^ 64 ∧ ip.addr.lo < 2 ^ 64 := by
  unfold Addr.WellFormed at h
  split at h
  · exact h.elim
  · obtain ⟨h1, h2⟩ := h
    constructor
    · rw [h1]; exact Nat.two_pow_pos 64
    · omega
  · exact h

/-- The host-only prefix that `Addr.Prefix` returns for the full bit length of a
well-formed address: the address itself (zone dropped) with 32 or 128 bits. -/
theorem Addr.Prefix_host (ip : Addr) (h : ip.WellFormed) :
    (if ip.Is4 then ip.Prefix 32 else ip.Prefix 128)
      = .ok { ip := ip.withoutZone, bitsPlusOne := if ip.Is4 then 33 else 129 } := by
  have hlt := Addr.WellFormed.lt ip h
  obtain ⟨ia, iz⟩ := ip
  have hm : ia.and (mask6 128) = ia := uint128.and_mask6_128 ia hlt
  cases iz with
  | z0 => exact h.elim
  | z4 =>
    have e1 : (32 : Int).toNat + 96 = 128 := by decide
    simp [Addr.Is4, Addr.Prefix, e1, hm, PrefixFrom, Addr.isZero, Addr.BitLen]
  | z6 zone =>
    have e1 : (128 : Int).toNat = 128 := by decide
    simp [Addr.Is4, Addr.Prefix, e1, hm, PrefixFrom, Addr.isZero, Addr.BitLen]

/-- A host-only prefix contains exactly its own address. -/
theorem Prefix.Contains_host (ip b : Addr) (h : ip.WellFormed) (hb : b.WellFormed)
    (hnz : ip.hasZone = false) :
    ({ ip := ip.withoutZone, bitsPlusOne := if ip.Is4 then 33 else 129 } : Prefix).Contains b
      = true ↔ b = ip := by
  cases hz : ip.z with
  | z0 => unfold Addr.WellFormed at h; rw [hz] at h; exact h.elim
  | z4 =>
    have h4 : ip.Is4 = true := by simp [Addr.Is4, hz]
    have hw : ip.withoutZone = ip := by simp [Addr.withoutZone, Addr.Is6, hz]
    simp only [h4, if_true, hw]
    cases hbz : b.z with
    | z0 => unfold Addr.WellFormed at hb; rw [hbz] at hb; exact hb.elim
    | z4 =>
      rw [Prefix.Contains_v4 ⟨ip, 33⟩ b hz h (show (1 : Nat) ≤ 33 by decide)
        (show (33 : Nat) ≤ 33 by decide) hbz hb]
      unfold Prefix.covers4 Addr.v4 Prefix.Bits
      simp only [show ((33 : Nat) : Int) - 1 = 32 by decide, show (32 : Int).toNat = 32 by decide,
        Nat.sub_self, Nat.pow_zero, Nat.div_one]
      have h1 := h; have h2 := hb
      unfold Addr.WellFormed at h1 h2
      rw [hz] at h1; rw [hbz] at h2
      simp only at h1 h2
      constructor
      · intro he
        have hlo : b.addr.lo = ip.addr.lo := by omega
        have hhi : b.addr.hi = ip.addr.hi := by rw [h1.1, h2.1]
        cases b with
        | mk ba bz =>
          cases ip with
          | mk ia iz =>
            cases ba; cases ia
            simp only at hlo hhi hz hbz
            subst hlo; subst hhi; subst hz; subst hbz
            rfl
      · intro he
        rw [he]
    | z6 zone =>
      constructor
      · intro hc
        unfold Prefix.Contains at hc
        simp [Addr.BitLen, hz, hbz, Prefix.IsValid] at hc
      · intro he
        rw [he, hz] at hbz
        cases hbz
  | z6 zone =>
    have hzone : zone = [] := by
      unfold Addr.hasZone at hnz
      rw [hz] at hnz
      cases zone with
      | nil => rfl
      | cons c cs => simp at hnz
    subst hzone
    have h4 : ip.Is4 = false := by simp [Addr.Is4, hz]
    have hw : ip.withoutZone = ip := by
      cases ip with
      | mk ia iz =>
        simp only at hz
        subst hz
        rfl
    simp only [h4, Bool.false_eq_true, if_false, hw]
    cases hbz : b.z with
    | z0 => unfold Addr.WellFormed at hb; rw [hbz] at hb; exact hb.elim
    | z4 =>
      constructor
      · intro hc
        unfold Prefix.Contains at hc
        simp [Addr.BitLen, hz, hbz, Prefix.IsValid] at hc
      · intro he
        rw [he, hz] at hbz
        cases hbz
    | z6 bzone =>
      cases bzone with
      | cons c cs =>
        constructor
        · intro hc
          unfold Prefix.Contains at hc
          simp [Addr.hasZone, hbz] at hc
        · intro he
          rw [he, hz] at hbz
          cases hbz
      | nil =>
        have hbl := Addr.WellFormed.lt b hb
        have hil := Addr.WellFormed.lt ip h
        have hcontains : (⟨ip, 129⟩ : Prefix).Contains b
            = ((b.addr.xor ip.addr).and (mask6 128)).isZero := by
          unfold Prefix.Contains
          simp [Addr.BitLen, Addr.hasZone, Addr.Is4, hz, hbz, Prefix.IsValid, Prefix.Bits]
        rw [hcontains, contains6_full_iff b.addr ip.addr hbl hil]
        constructor
        · intro he
          cases b with
          | mk ba bz =>
            cases ip with
            | mk ia iz =>
              simp only at he hz hbz
              subst he; subst hz; subst hbz
              rfl
        · intro he
          rw [he]

end netip

namespace users

theorem ParseAddr_star : ParseAddr ['*'] = .error "unable to parse IP" := by decide

/-- What `AddIP` stores for a bare address without a zone: one entry under the spec
itself, holding the parsed address with 32 or 128 bits. -/
theorem User.AddIP_bare_store (n s a : GoString) (addr : Addr)
    (hbare : strings.Contains a '/' = false) (ha : ParseAddr a = .ok addr)
    (hnz : addr.hasZone = false) :
    a ≠ ['*'] ∧ addr.withoutZone = addr
    ∧ (newUser n s).AddIP a
      = ({ Username := n, Password := s,
           IPs := [(a, some { ip := addr, bitsPlusOne := if addr.Is4 then 33 else 129 })] },
         none) := by
  have hwf := ParseAddr_wellFormed a addr ha
  have hne : a ≠ ['*'] := by
    intro hh
    rw [hh, ParseAddr_star] at ha
    cases ha
  have hw : addr.withoutZone = addr := by
    obtain ⟨ia, iz⟩ := addr
    cases iz with
    | z0 => rfl
    | z4 => rfl
    | z6 zone =>
      cases zone with
      | nil => rfl
      | cons c cs => simp [Addr.hasZone] at hnz
  refine ⟨hne, hw, ?_⟩
  unfold User.AddIP
  rw [if_neg hne]
  have hp := Addr.Prefix_host addr hwf
  rw [hw] at hp
  simp only [hbare, Bool.not_false, if_true, ha, hp]
  rfl

end users
end Fileserver

/-! ## The claims -/

namespace Fileserver
open users netip

namespace users

theorem User.AddIP_valid (u : User) (ip : GoString) (h : u.Valid) : (u.AddIP ip).1.Valid := by
  unfold User.AddIP
  split
  · intro e he hne
    rcases GoMap.mem_set _ _ _ _ he with h1 | h1
    · exact absurd (by rw [h1]) hne
    · exact h e h1 hne
  · split
    · split
      · exact h
      · intro e he hne
        rcases GoMap.mem_set _ _ _ _ he with h1 | h1
        · rw [h1]; simp
        · exact h e h1 hne
    · split
      · exact h
      · intro e he hne
        rcases GoMap.mem_set _ _ _ _ he with h1 | h1
        · rw [h1]; simp
        · exact h e h1 hne

theorem User.RemoveIP_valid (u : User) (ip : GoString) (h : u.Valid) : (u.RemoveIP ip).Valid := by
  unfold User.RemoveIP
  split
  · intro e he hne
    exact h e ((GoMap.mem_delete _ _ _).1 he).1 hne
  · intro e he hne
    exact h e ((GoMap.mem_delete _ _ _).1 he).1 hne

theorem User.applyAll_valid (u : User) (ops : List IPOp) (h : u.Valid) : (u.applyAll ops).Valid := by
  induction ops generalizing u with
  | nil => exact h
  | cons op ops ih =>
    apply ih
    cases op with
    | add ip => exact User.AddIP_valid u ip h
    | remove ip => exact User.RemoveIP_valid u ip h

theorem newUser_valid (user pass : GoString) : (newUser user pass).Valid := by
  intro e he
  simp [newUser, LocalUsers.Add] at he

theorem User.apply_keeps_marker (u : User) (op : IPOp) (hop : op ≠ IPOp.remove ['*'])
    (h : ['*'] ∈ u.IPs.map Prod.fst) : ['*'] ∈ (u.apply op).IPs.map Prod.fst := by
  cases op with
  | add ip =>
    show ['*'] ∈ (u.AddIP ip).1.IPs.map Prod.fst
    unfold User.AddIP
    split
    · exact GoMap.key_mem_set _ _ _
    · split
      · split
        · exact h
        · exact GoMap.key_mem_set_of_mem _ _ _ _ h
      · split
        · exact h
        · exact GoMap.key_mem_set_of_mem _ _ _ _ h
  | remove ip =>
    show ['*'] ∈ (u.RemoveIP ip).IPs.map Prod.fst
    have hip : ip ≠ ['*'] := fun hh => hop (by rw [hh])
    unfold User.RemoveIP
    rw [if_neg hip]
    apply GoMap.key_mem_delete_of_ne _ _ _ _ h
    split
    · intro hh
      have := congrArg List.length hh
      simp at this
    · exact fun hh => hip hh.symm

theorem User.applyAll_keeps_marker (u : User) (ops : List IPOp)
    (hops : IPOp.remove ['*'] ∉ ops)
    (h : ['*'] ∈ u.IPs.map Prod.fst) : ['*'] ∈ (u.applyAll ops).IPs.map Prod.fst := by
  induction ops generalizing u with
  | nil => exact h
  | cons op ops ih =>
    apply ih
    · exact fun hh => hops (List.mem_cons_of_mem _ hh)
    · exact User.apply_keeps_marker u op (fun hh => hops (by rw [hh]; exact List.mem_cons_self _ _)) h

theorem User.FindIP.range_marker (addr : Addr) (entries : List (GoString × Option Prefix))
    (hvalid : ∀ e ∈ entries, e.1 ≠ ['*'] → e.2 ≠ none)
    (hstar : ['*'] ∈ entries.map Prod.fst) :
    User.FindIP.range addr entries = .returned true := by
  induction entries with
  | nil => simp at hstar
  | cons e rest ih =>
    obtain ⟨k, v⟩ := e
    unfold User.FindIP.range
    by_cases hk : k = ['*']
    · simp [hk]
    · rw [if_neg hk]
      cases v with
      | none => exact absurd rfl (hvalid (k, none) (List.mem_cons_self _ _) hk)
      | some p =>
        by_cases hc : p.Contains addr = true
        · simp [hc]
        · simp only [hc]
          apply ih
          · exact fun e he => hvalid e (List.mem_cons_of_mem _ he)
          · simp only [List.map_cons, List.mem_cons] at hstar
            rcases hstar with h1 | h1
            · exact absurd h1.symm hk
            · exact h1

/-- C4: after `AddIP("*")` on a user built by any `AddIP`/`RemoveIP` calls, and after any
further calls other than `RemoveIP("*")`, `FindIP(a)` returns true for every address `a`
that `ParseAddr` accepts (IPv4 or IPv6), in whatever order the entries are visited; it
never stops on the nil prefix of the marker. -/
theorem User.FindIP_allow_any (user pass : GoString) (before after : List IPOp)
    (order : List (GoString × Option Prefix)) (a : GoString) (addr : Addr)
    (hafter : IPOp.remove ['*'] ∉ after)
    (horder : order.Perm ((((newUser user pass).applyAll before).AddIP ['*']).1.applyAll after).IPs)
    (ha : ParseAddr a = .ok addr) :
    (((newUser user pass).applyAll before).AddIP ['*']).2 = none
    ∧ User.FindIP
        { (((newUser user pass).applyAll before).AddIP ['*']).1.applyAll after with IPs := order } a
      = .returned true := by
  constructor
  · simp [User.AddIP]
  · unfold User.FindIP
    rw [ha]
    apply User.FindIP.range_marker
    · intro e he
      have hv := User.applyAll_valid _ after
        (User.AddIP_valid _ ['*'] (User.applyAll_valid _ before (newUser_valid user pass)))
      exact hv e (horder.mem_iff.1 he)
    · have hm := User.applyAll_keeps_marker
        (((newUser user pass).applyAll before).AddIP ['*']).1 after hafter
        (by simp only [User.AddIP, if_true]; exact GoMap.key_mem_set _ _ _)
      rw [List.mem_map] at hm ⊢
      obtain ⟨e, he, hk⟩ := hm
      exact ⟨e, horder.mem_iff.2 he, hk⟩

end users
end Fileserver

namespace Fileserver
open netip
namespace users

theorem User.FindIP_cidr_v4 (n s : GoString) (specs : List GoString) (a : GoString) (addr : Addr)
    (hspecs : ∀ spec ∈ specs, ∃ p, ParsePrefix spec = .ok p ∧ p.ip.Is4 = true)
    (ha : ParseAddr a = .ok addr) (h4 : addr.Is4 = true) :
    ∃ b, ((newUser n s).applyAll (specs.map IPOp.add)).FindIP a = .returned b
      ∧ (b = true ↔ ∃ spec ∈ specs, ∃ p, ParsePrefix spec = .ok p ∧ p.covers4 addr) := by
  have hinv := User.applyAll_cidr (newUser n s) [] specs
    ⟨by simp [newUser, LocalUsers.Add], by simp⟩
    (fun spec hs => (hspecs spec hs).imp fun p hp => hp.1)
  simp only [List.nil_append] at hinv
  obtain ⟨h1, h2, _, _⟩ := hinv
  have haz : addr.z = Zone.z4 := by simpa [Addr.Is4] using h4
  have hawf := ParseAddr_wellFormed a addr ha
  unfold User.FindIP
  rw [ha]
  simp only
  rw [User.FindIP.range_any]
  · refine ⟨_, rfl, ?_⟩
    rw [decide_eq_true_iff]
    constructor
    · rintro ⟨e, he, p, hp, hc⟩
      obtain ⟨hmem, p', hp', hp''⟩ := h1 e he
      have hpp : p' = p := by rw [hp] at hp''; exact (Option.some.inj hp'').symm
      subst hpp
      obtain ⟨q, hq, hq4⟩ := hspecs e.1 hmem
      have hqp : q = p' := by rw [hp'] at hq; exact (Except.ok.inj hq).symm
      subst hqp
      obtain ⟨_, hz, hwf, hb1, hb2⟩ := ParsePrefix_v4 e.1 q hp' hq4
      exact ⟨e.1, hmem, q, hp', (Prefix.Contains_v4 q addr hz hwf hb1 hb2 haz hawf).1 hc⟩
    · rintro ⟨spec, hmem, p, hp, hc⟩
      obtain ⟨e, he, hes⟩ := h2 spec hmem
      obtain ⟨_, p', hp', hp''⟩ := h1 e he
      rw [hes, hp] at hp'
      have hpp : p = p' := Except.ok.inj hp'
      subst hpp
      obtain ⟨q, hq, hq4⟩ := hspecs spec hmem
      have hqp : q = p := by rw [hp] at hq; exact (Except.ok.inj hq).symm
      subst hqp
      obtain ⟨_, hz, hwf, hb1, hb2⟩ := ParsePrefix_v4 spec q hp hq4
      exact ⟨e, he, q, hp'', (Prefix.Contains_v4 q addr hz hwf hb1 hb2 haz hawf).2 hc⟩
  · intro e he
    obtain ⟨hmem, p, hp, hp'⟩ := h1 e he
    refine ⟨?_, p, hp'⟩
    intro hstar
    have := (ParsePrefix_ok e.1 p hp).1
    rw [hstar] at this
    simp at this

/-- C2: for a user created by `Add(n, s)` and given IPv4 prefixes by `AddIP`, `FindUser` on
an origin `a:port` with `a` a well-formed IPv4 address strips the port, returns the record
of `n` when `a` lies within at least one of the prefixes, and fails with the origin-denied
error naming `a` when it lies within none. -/
theorem LocalUsers.FindUser_cidr_v4 (d : LocalUsers) (n s : GoString) (specs : List GoString)
    (a port : GoString) (addr : Addr)
    (hspecs : ∀ spec ∈ specs, ∃ p, ParsePrefix spec = .ok p ∧ p.ip.Is4 = true)
    (hget : d.Get n = .ok ((newUser n s).applyAll (specs.map IPOp.add)))
    (ha : ParseAddr a = .ok addr) (h4 : addr.Is4 = true) :
    stripPort (a ++ ':' :: port) = a
    ∧ ((newUser n s).applyAll (specs.map IPOp.add)).Username = n
    ∧ ((∃ spec ∈ specs, ∃ p, ParsePrefix spec = .ok p ∧ p.covers4 addr) →
        d.FindUser n s (a ++ ':' :: port)
          = .returned (.ok ((newUser n s).applyAll (specs.map IPOp.add))))
    ∧ ((¬ ∃ spec ∈ specs, ∃ p, ParsePrefix spec = .ok p ∧ p.covers4 addr) →
        d.FindUser n s (a ++ ':' :: port)
          = .returned (.error (Error.ipOriginNotAllowed a))) := by
  have hstrip : stripPort (a ++ ':' :: port) = a :=
    stripPort_append a port (ParseAddr_v4_no_colon a addr ha h4)
  have hinv := User.applyAll_cidr (newUser n s) [] specs
    ⟨by simp [newUser, LocalUsers.Add], by simp⟩
    (fun spec hs => (hspecs spec hs).imp fun p hp => hp.1)
  have hname : ((newUser n s).applyAll (specs.map IPOp.add)).Username = n := hinv.2.2.1
  have hpass : ((newUser n s).applyAll (specs.map IPOp.add)).Password = s := hinv.2.2.2
  obtain ⟨b, hfind, hb⟩ := User.FindIP_cidr_v4 n s specs a addr hspecs ha h4
  refine ⟨hstrip, hname, ?_, ?_⟩
  · intro hex
    have hbt : b = true := hb.2 hex
    subst hbt
    unfold LocalUsers.FindUser
    rw [hget]
    simp only [hpass, ne_eq, not_true_eq_false, if_false, hstrip, hfind]
  · intro hex
    have hbf : b = false := by
      cases b
      · rfl
      · exact absurd (hb.1 rfl) hex
    subst hbf
    unfold LocalUsers.FindUser
    rw [hget]
    simp only [hpass, ne_eq, not_true_eq_false, if_false, hstrip, hfind]

end users
end Fileserver

namespace Fileserver
open netip

namespace users

/-- A bare address that parses is stored by `AddIP` under the spec string itself. -/
theorem User.AddIP_bare_key (n s a : GoString) (addr : Addr)
    (hbare : strings.Contains a '/' = false) (ha : ParseAddr a = .ok addr) :
    ∃ pfx, (newUser n s).AddIP a
      = ({ Username := n, Password := s, IPs := [(a, some pfx)] }, none) := by
  have hne : a ≠ ['*'] := by
    intro hh
    rw [hh, ParseAddr_star] at ha
    cases ha
  unfold User.AddIP
  rw [if_neg hne]
  simp only [hbare, Bool.not_false, if_true, ha]
  exact ⟨_, rfl⟩

/-- C1: `FindUser` classifies its failure by the first failing check. With no record for
the username (in particular after `Remove(username)`, for every secret and origin) it
fails with "user not found"; with a record whose password differs it fails with
"password is incorrect", whatever the origin; and it fails with the origin-denied error
exactly when a record exists, the password matches and `FindIP` on the port-stripped
origin returns false. -/
theorem LocalUsers.FindUser_failure_classification (d : LocalUsers)
    (username password ipaddr : GoString) :
    (GoMap.get? d.users username = none →
        d.FindUser username password ipaddr = .returned (.error Error.userNotFound))
    ∧ (d.Remove username).1.FindUser username password ipaddr
        = .returned (.error Error.userNotFound)
    ∧ (∀ userInfo, d.Get username = .ok userInfo → userInfo.Password ≠ password →
        d.FindUser username password ipaddr = .returned (.error Error.passwordIncorrect))
    ∧ (∀ x, d.FindUser username password ipaddr
          = .returned (.error (Error.ipOriginNotAllowed x)) ↔
        ∃ userInfo, d.Get username = .ok userInfo ∧ userInfo.Password = password
          ∧ userInfo.FindIP (stripPort ipaddr) = .returned false ∧ x = stripPort ipaddr) := by
  refine ⟨?_, ?_, ?_, ?_⟩
  · intro h
    simp [LocalUsers.FindUser, LocalUsers.Get, h]
  · simp [LocalUsers.FindUser, LocalUsers.Get, LocalUsers.Remove, GoMap.get?_delete_self]
  · intro userInfo hget hpw
    simp [LocalUsers.FindUser, hget, hpw]
  · intro x
    unfold LocalUsers.FindUser
    cases hget : d.Get username with
    | error err =>
      have : err = Error.userNotFound := by
        unfold LocalUsers.Get at hget
        split at hget <;> simp_all
      subst this
      simp
    | ok userInfo =>
      by_cases hpw : userInfo.Password = password
      · cases hfind : userInfo.FindIP (stripPort ipaddr) with
        | fault => simp [hpw, hfind]
        | returned b =>
          cases b
          · simp [hpw, hfind]
            constructor
            · intro h; exact h.symm
            · intro h; exact h.symm
          · simp [hpw, hfind]
      · simp [hpw]

/-- C1 at the directory of scenario 1: an unknown user is not found, and a wrong secret
from an allowed origin is a credential mismatch. -/
theorem LocalUsers.FindUser_failure_classification_witness :
    Scenario.dir24.FindUser "bob".toList Scenario.secret "10.0.0.5:4444".toList
        = .returned (.error Error.userNotFound)
    ∧ Scenario.dir24.FindUser Scenario.alice "wrong".toList "10.0.0.5:4444".toList
        = .returned (.error Error.passwordIncorrect) :=
  ⟨(LocalUsers.FindUser_failure_classification Scenario.dir24 "bob".toList Scenario.secret
      "10.0.0.5:4444".toList).1 (by decide),
   (LocalUsers.FindUser_failure_classification Scenario.dir24 Scenario.alice "wrong".toList
      "10.0.0.5:4444".toList).2.2.1 Scenario.alice24 (by decide) (by decide)⟩

/-- C3 (the code at the failing input, and at every IPv6 origin): when the record exists and
the secret matches, `FindUser` on a well-formed IPv6 origin `o` is denied whatever the
origin set holds, the allow-any marker included: the port stripping cuts `o` at its first
colon and what is left is not an address. -/
theorem LocalUsers.FindUser_v6_denied (d : LocalUsers) (n s o : GoString) (u : User)
    (addr : Addr) (hget : d.Get n = .ok u) (hpw : u.Password = s)
    (ho : ParseAddr o = .ok addr) (h6 : addr.Is6 = true) :
    d.FindUser n s o = .returned (.error (Error.ipOriginNotAllowed (stripPort o))) := by
  have hstrip := stripPort_v6 o addr ho h6
  unfold LocalUsers.FindUser
  rw [hget]
  simp only [hpw, ne_eq, not_true_eq_false, if_false]
  unfold User.FindIP
  rw [hstrip]

/-- C3 at scenario 4: with the allow-any marker present, `FindUser("alice","s3cret","::1")`
fails with the origin-denied error for the empty string. -/
theorem LocalUsers.FindUser_v6_denied_witness :
    ['*'] ∈ Scenario.aliceAny.IPs.map Prod.fst
    ∧ Scenario.dirAny.FindUser Scenario.alice Scenario.secret "::1".toList
        = .returned (.error (Error.ipOriginNotAllowed [])) :=
  ⟨by decide,
   LocalUsers.FindUser_v6_denied Scenario.dirAny Scenario.alice Scenario.secret "::1".toList
     Scenario.aliceAny ⟨⟨0, 1⟩, Zone.z6 []⟩ (by decide) (by decide) (by decide) (by decide)⟩

/-- C5 as stated fails at the zoned address `fe80::1%eth0`: it is a bare spec that
`ParseAddr` accepts and `AddIP` stores without error, yet `FindIP` of the same string
returns false right afterwards. -/
theorem User.AddIP_zoned_counterexample :
    strings.Contains "fe80::1%eth0".toList '/' = false
    ∧ ParseAddr "fe80::1%eth0".toList
        = .ok ⟨⟨0xfe80000000000000, 1⟩, Zone.z6 "eth0".toList⟩
    ∧ ((newUser Scenario.alice Scenario.secret).AddIP "fe80::1%eth0".toList).2 = none
    ∧ ((newUser Scenario.alice Scenario.secret).AddIP "fe80::1%eth0".toList).1.FindIP
        "fe80::1%eth0".toList = .returned false := by
  decide

/-- C5 (amended): for every well-formed bare address `a` that has no IPv6 zone, `AddIP(a)` on
a new user returns no error and stores, under the key `a`, the host-only prefix of `a`
(the parsed address with prefix length 32 for IPv4 and 128 for IPv6); afterwards
`FindIP(b)` returns true exactly when `b` parses to the same address as `a`. -/
theorem User.AddIP_bare_host (n s a : GoString) (addr : Addr)
    (hbare : strings.Contains a '/' = false) (ha : ParseAddr a = .ok addr)
    (hnz : addr.hasZone = false) :
    (newUser n s).AddIP a
      = ({ Username := n, Password := s,
           IPs := [(a, some { ip := addr, bitsPlusOne := if addr.Is4 then 33 else 129 })] }, none)
    ∧ ({ ip := addr, bitsPlusOne := if addr.Is4 then 33 else 129 } : Prefix).Bits
        = (if addr.Is4 then 32 else 128)
    ∧ ∀ b, ((newUser n s).AddIP a).1.FindIP b = .returned (decide (ParseAddr b = .ok addr)) := by
  obtain ⟨hne, hw, hstore⟩ := User.AddIP_bare_store n s a addr hbare ha hnz
  have hwf := ParseAddr_wellFormed a addr ha
  refine ⟨hstore, ?_, ?_⟩
  · unfold Prefix.Bits
    split <;> rfl
  · intro b
    rw [hstore]
    unfold User.FindIP
    cases hb : ParseAddr b with
    | error e => simp
    | ok baddr =>
      have hbwf := ParseAddr_wellFormed b baddr hb
      have hc := Prefix.Contains_host addr baddr hwf hbwf hnz
      rw [hw] at hc
      simp only [User.FindIP.range, if_neg hne]
      by_cases he : baddr = addr
      · rw [if_pos (hc.2 he)]
        simp [he]
      · have hcf : ¬ (({ ip := addr, bitsPlusOne := if addr.Is4 then 33 else 129 } :
            Prefix).Contains baddr = true) := fun hh => he (hc.1 hh)
        rw [if_neg hcf]
        simp [he]

/-- C5 (amended) at `::1`: the host prefix has 128 bits, `0:0:0:0:0:0:0:1` is found and
`::2` is not. -/
theorem User.AddIP_bare_host_witness :
    ((newUser Scenario.alice Scenario.secret).AddIP "::1".toList).1.FindIP
        "0:0:0:0:0:0:0:1".toList = .returned true
    ∧ ((newUser Scenario.alice Scenario.secret).AddIP "::1".toList).1.FindIP "::2".toList
        = .returned false :=
  ⟨((User.AddIP_bare_host Scenario.alice Scenario.secret "::1".toList ⟨⟨0, 1⟩, Zone.z6 []⟩
      (by decide) (by decide) (by decide)).2.2 "0:0:0:0:0:0:0:1".toList).trans (by decide),
   ((User.AddIP_bare_host Scenario.alice Scenario.secret "::1".toList ⟨⟨0, 1⟩, Zone.z6 []⟩
      (by decide) (by decide) (by decide)).2.2 "::2".toList).trans (by decide)⟩

/-- C6 (the code at the failing input, and at every bare address): after `AddIP(a)` with a
bare address `a` on a new user, `RemoveIP(a)` changes nothing, because it deletes the key
`a + "/32"` while the entry is stored under `a`; the origin set is not empty and, when `a`
has no zone, `FindIP(a)` is still true. -/
theorem User.RemoveIP_bare_noop (n s a : GoString) (addr : Addr)
    (hbare : strings.Contains a '/' = false) (ha : ParseAddr a = .ok addr) :
    ((newUser n s).AddIP a).2 = none
    ∧ ((newUser n s).AddIP a).1.RemoveIP a = ((newUser n s).AddIP a).1
    ∧ (((newUser n s).AddIP a).1.RemoveIP a).IPs ≠ []
    ∧ (addr.hasZone = false →
        (((newUser n s).AddIP a).1.RemoveIP a).FindIP a = .returned true) := by
  obtain ⟨pfx, hstore⟩ := User.AddIP_bare_key n s a addr hbare ha
  have hne : a ≠ ['*'] := by
    intro hh
    rw [hh, ParseAddr_star] at ha
    cases ha
  have hkey : a ≠ a ++ ['/', '3', '2'] := by
    intro hh
    have := congrArg List.length hh
    simp at this
  have hremove : ((newUser n s).AddIP a).1.RemoveIP a = ((newUser n s).AddIP a).1 := by
    rw [hstore]
    unfold User.RemoveIP
    rw [if_neg hne]
    simp only [hbare, Bool.not_false, if_true, GoMap.delete]
    simp [hkey]
  refine ⟨by rw [hstore], hremove, ?_, ?_⟩
  · rw [hremove, hstore]
    simp
  · intro hnz
    obtain ⟨_, hw, hstore'⟩ := User.AddIP_bare_store n s a addr hbare ha hnz
    have hwf := ParseAddr_wellFormed a addr ha
    have hc := (Prefix.Contains_host addr addr hwf hwf hnz).2 rfl
    rw [hw] at hc
    rw [hremove, hstore']
    unfold User.FindIP
    rw [ha]
    simp only [User.FindIP.range, if_neg hne, hc, if_true]

/-- C6 at `10.0.0.1`: after `AddIP("10.0.0.1")` and `RemoveIP("10.0.0.1")` the address is
still found. -/
theorem User.RemoveIP_bare_noop_witness :
    (((newUser Scenario.alice Scenario.secret).AddIP "10.0.0.1".toList).1.RemoveIP
        "10.0.0.1".toList).FindIP "10.0.0.1".toList = .returned true :=
  (User.RemoveIP_bare_noop Scenario.alice Scenario.secret "10.0.0.1".toList
    ⟨⟨0, 0xffff0a000001⟩, Zone.z4⟩ (by decide) (by decide)).2.2.2 (by decide)

/-- C2 at scenarios 1 and 2: with `10.0.0.0/24` allowed, `10.0.0.5:4444` is accepted with
the record of alice and `11.0.0.5:4444` is denied. -/
theorem LocalUsers.FindUser_cidr_v4_witness :
    Scenario.dir24.FindUser Scenario.alice Scenario.secret "10.0.0.5:4444".toList
        = .returned (.ok Scenario.alice24)
    ∧ Scenario.dir24.FindUser Scenario.alice Scenario.secret "11.0.0.5:4444".toList
        = .returned (.error (Error.ipOriginNotAllowed "11.0.0.5".toList)) :=
  ⟨(LocalUsers.FindUser_cidr_v4 Scenario.dir24 Scenario.alice Scenario.secret
      ["10.0.0.0/24".toList] "10.0.0.5".toList "4444".toList ⟨⟨0, 0xffff0a000005⟩, Zone.z4⟩
      (fun spec hs => by
        rw [List.mem_singleton.1 hs]
        exact ⟨⟨⟨⟨0, 0xffff0a000000⟩, Zone.z4⟩, 25⟩, by decide, by decide⟩)
      (by decide) (by decide) (by decide)).2.2.1
      ⟨"10.0.0.0/24".toList, List.mem_singleton.2 rfl, ⟨⟨⟨0, 0xffff0a000000⟩, Zone.z4⟩, 25⟩,
        by decide, by decide⟩,
   (LocalUsers.FindUser_cidr_v4 Scenario.dir24 Scenario.alice Scenario.secret
      ["10.0.0.0/24".toList] "11.0.0.5".toList "4444".toList ⟨⟨0, 0xffff0b000005⟩, Zone.z4⟩
      (fun spec hs => by
        rw [List.mem_singleton.1 hs]
        exact ⟨⟨⟨⟨0, 0xffff0a000000⟩, Zone.z4⟩, 25⟩, by decide, by decide⟩)
      (by decide) (by decide) (by decide)).2.2.2
      (by
        rintro ⟨spec, hs, p, hp, hc⟩
        rw [List.mem_singleton.1 hs] at hp
        have hparse : ParsePrefix "10.0.0.0/24".toList
            = .ok ⟨⟨⟨0, 0xffff0a000000⟩, Zone.z4⟩, 25⟩ := by decide
        have hp' : p = ⟨⟨⟨0, 0xffff0a000000⟩, Zone.z4⟩, 25⟩ :=
          Except.ok.inj (hp.symm.trans hparse)
        rw [hp'] at hc
        revert hc
        decide)⟩

/-- C4 with `10.0.0.0/24` added before the marker and `2001:db8::/32` after it, the entries
visited in reverse order: `::1` and `192.168.1.1` are both found. -/
theorem User.FindIP_allow_any_witness :
    User.FindIP
        { (((newUser Scenario.alice Scenario.secret).applyAll
              [IPOp.add "10.0.0.0/24".toList]).AddIP ['*']).1.applyAll
            [IPOp.add "2001:db8::/32".toList] with
          IPs := ((((newUser Scenario.alice Scenario.secret).applyAll
              [IPOp.add "10.0.0.0/24".toList]).AddIP ['*']).1.applyAll
            [IPOp.add "2001:db8::/32".toList]).IPs.reverse } "::1".toList
      = .returned true :=
  (User.FindIP_allow_any Scenario.alice Scenario.secret [IPOp.add "10.0.0.0/24".toList]
    [IPOp.add "2001:db8::/32".toList] _ "::1".toList ⟨⟨0, 1⟩, Zone.z6 []⟩ (by decide)
    (List.reverse_perm _) (by decide)).2

end users

namespace sftp

/-- On the path of the program the registry never holds a record: the first record could
only be written after an `AuthHandler` call accepted, and with an empty registry that call
stops on the nil dereference. -/
theorem Server.Produced.registry_empty {ε α : Type} (s : Server ε α) (h : Server.Produced s) :
    s.sshServerConn = [] := by
  induction h with
  | new addr users => rfl
  | listen _ _ => rfl
  | register c pass record _ haccept ih =>
    unfold Server.AuthHandler at haccept
    rw [ih] at haccept
    cases haccept
  | unregister c _ ih =>
    show GoMap.delete _ c = []
    rw [ih]
    rfl
  | serve requestServer _ ih => exact ih

/-- C7 (the code at the failing input, and at every state the program produces): in every
state on the path of the program, `AuthHandler` stops on the nil dereference
`s.sshServerConn[c].ctx` for every connection and password, so a login for which `FindUser`
fails is not answered with the rejection "password rejected for" the username: the handler
returns nothing and never reaches the `FindUser` call. -/
theorem Server.AuthHandler_failed_login_faults {ε α : Type} (s : Server ε α)
    (h : Server.Produced s) (c : ConnMetadata) (pass : GoString) :
    s.AuthHandler c pass = .fault
    ∧ s.AuthHandler c pass ≠ .returned (none, some (AuthHandlerError.passwordRejected c.User))
    ∧ Server.AuthHandler.findUserCall s c pass = none := by
  have hempty := Server.Produced.registry_empty s h
  have hfault : s.AuthHandler c pass = .fault := by
    unfold Server.AuthHandler
    rw [hempty]
    rfl
  refine ⟨hfault, ?_, ?_⟩
  · rw [hfault]
    exact fun hh => Outcome.noConfusion hh
  · unfold Server.AuthHandler.findUserCall
    rw [hempty]
    rfl

/-- C7 on a listening server over the directory of scenario 1: a wrong secret from an
allowed origin and the right secret from a denied origin both make `FindUser` fail, for
different reasons, and in both logins the handler stops on the fault instead of returning
a rejection. -/
theorem Server.AuthHandler_failed_login_faults_witness :
    Scenario.dir24.FindUser Scenario.alice "wrong".toList "10.0.0.5:4444".toList
        = .returned (.error users.Error.passwordIncorrect)
    ∧ Scenario.dir24.FindUser Scenario.alice Scenario.secret "11.0.0.5:4444".toList
        = .returned (.error (users.Error.ipOriginNotAllowed "11.0.0.5".toList))
    ∧ Scenario.serverListening.AuthHandler Scenario.connAllowed "wrong".toList = .fault
    ∧ Scenario.serverListening.AuthHandler Scenario.connDenied Scenario.secret = .fault :=
  ⟨by decide, by decide,
   (Server.AuthHandler_failed_login_faults Scenario.serverListening
      (Server.Produced.listen (Server.Produced.new _ _)) Scenario.connAllowed
      "wrong".toList).1,
   (Server.AuthHandler_failed_login_faults Scenario.serverListening
      (Server.Produced.listen (Server.Produced.new _ _)) Scenario.connDenied
      Scenario.secret).1⟩

/-- No state that `NewSFTPServer`, `ListenAndServe` and `sshHandler` produce has a
listener stored in the server. -/
theorem Server.Reachable.listener_none {ε α : Type} (s : Server ε α) (h : Server.Reachable s) :
    s.listener = none := by
  induction h with
  | new addr users => rfl
  | listen _ ih => exact ih
  | register c record _ ih => exact ih
  | unregister c _ ih => exact ih
  | serve requestServer _ ih => exact ih

/-- C8 (the code at the failing input, and at every reachable state): `Server.Close` does
not return normally in any state that `NewSFTPServer`, `ListenAndServe` and `sshHandler`
produce; it stops on a nil dereference, of `s.sftpServer` when no session was opened and
of `s.listener` otherwise. -/
theorem Server.Close_faults {ε α : Type} (s : Server ε α) (h : Server.Reachable s) :
    s.Close = .fault := by
  have hl := Server.Reachable.listener_none s h
  unfold Server.Close
  cases s.sftpServer with
  | none => rfl
  | some requestServer => simp only [hl]

/-- C8 on a server that is listening, with no connection and no session ever opened. -/
theorem Server.Close_faults_witness : Scenario.serverListening.Close = .fault :=
  Server.Close_faults Scenario.serverListening
    (Server.Reachable.listen (Server.Reachable.new _ _))

/-- C9 (the code at the failing input): on a "subsystem" request whose payload has fewer
than four bytes `filterHandler` replies nothing and stops on the slice bound of
`req.Payload[4:]`, whatever requests follow. -/
theorem Server.filterHandler_short_payload_faults (req : Request) (rest : List Request)
    (htype : req.ReqType = "subsystem".toList) (hlen : req.Payload.length < 4) :
    Server.filterHandler (req :: rest) = .fault := by
  unfold Server.filterHandler
  simp only [htype, hlen, if_true]

/-- C9 on a "subsystem" request with an empty payload. -/
theorem Server.filterHandler_short_payload_faults_witness :
    Server.filterHandler [Scenario.emptySubsystem] = .fault :=
  Server.filterHandler_short_payload_faults Scenario.emptySubsystem [] (by decide) (by decide)

/-- C10 (the code at the failing input): for every registry state and every connection that
has no record in it, `AuthHandler` stops on the nil dereference `s.sshServerConn[c].ctx`
before it calls `FindUser`, whatever the password. -/
theorem Server.AuthHandler_faults_without_record {ε α : Type} (s : Server ε α)
    (c : ConnMetadata) (pass : GoString) (h : GoMap.get? s.sshServerConn c = none) :
    s.AuthHandler c pass = .fault ∧ Server.AuthHandler.findUserCall s c pass = none := by
  unfold Server.AuthHandler Server.AuthHandler.findUserCall
  rw [h]
  exact ⟨rfl, rfl⟩

/-- C10 on a listening server during the handshake of alice, with the right secret from an
allowed origin. -/
theorem Server.AuthHandler_faults_without_record_witness :
    Scenario.serverListening.AuthHandler Scenario.connAllowed Scenario.secret = .fault :=
  (Server.AuthHandler_faults_without_record Scenario.serverListening Scenario.connAllowed
    Scenario.secret (by decide)).1

end sftp
end Fileserver
